import Mathlib

/-!
# AssetLoader: the model import pipeline

A shallow embedding of `I-Just-Want-To-Go-Home/AssetLoader.h`.

* Floats are only ever copied by the loader, so the scalar type is a parameter `F`
  (with a zero, for the default texture coordinate).
* C arrays that come with their own count (`mFaces`, `mIndices`, `mMeshes` of a node,
  `mChildren`, the textures of one material slot) are lists; the count is the length.
  The per-vertex arrays of a mesh share the single count `mNumVertices`, which is kept
  as a field of its own; a null array is the empty list.
* `Entity*` pointers are indices into a heap of entities; `new Entity()` appends.
* Functions whose C++ execution can leave defined behaviour (an out-of-range array
  access, a null dereference) return `Option`, `none` standing for such an execution.
* Calls into the GPU API are recorded in a trace, as is every entry into
  `TextureFromFile`.
-/

/-! ## Strings -/

/-- The C string held by a buffer: the characters before the first NUL. This is what
`strcmp`, `std::string(const char*)` and `c_str()` consumers see. -/
def C_Str (s : String) : String :=
  ⟨s.data.takeWhile (fun ch => ch != Char.ofNat 0)⟩

/-- The method `std::string::find_last_of(c)`; `none` stands for `npos`. -/
def find_last_of (s : String) (c : Char) : Option Nat :=
  (List.range s.data.length).reverse.find? (fun k => s.data.get? k == some c)

/-- The method `std::string::substr(0, pos)`, where `none` is `npos` (the whole string). -/
def substr0 (s : String) (pos : Option Nat) : String :=
  match pos with
  | none => s
  | some k => ⟨s.data.take k⟩

/-- Conversion of a signed value to `unsigned int` (32 bits). -/
def toUnsignedInt (z : Int) : Nat := (z % 4294967296).toNat

/-! ## Matrices and vectors -/

/-- The 2-vector of glm. -/
structure vec2 (F : Type) where
  x : F
  y : F
deriving DecidableEq, Repr

/-- The 3-vector of glm. -/
structure vec3 (F : Type) where
  x : F
  y : F
  z : F
deriving DecidableEq, Repr

/-- The 4-vector of glm, one column of a `mat4`. -/
structure vec4 (F : Type) where
  x : F
  y : F
  z : F
  w : F
deriving DecidableEq, Repr

/-- The 4x4 matrix of glm: four columns; `m[c][r]` is component `r` of column `c`. -/
structure mat4 (F : Type) where
  col0 : vec4 F
  col1 : vec4 F
  col2 : vec4 F
  col3 : vec4 F
deriving DecidableEq, Repr

/-- Component read `v[r]`. -/
def vec4.get {F : Type} (v : vec4 F) : Fin 4 → F
  | 0 => v.x
  | 1 => v.y
  | 2 => v.z
  | 3 => v.w

/-- Component write `v[r] = a`. -/
def vec4.set {F : Type} (v : vec4 F) (r : Fin 4) (a : F) : vec4 F :=
  match r with
  | 0 => { v with x := a }
  | 1 => { v with y := a }
  | 2 => { v with z := a }
  | 3 => { v with w := a }

/-- Column read `m[c]`. -/
def mat4.col {F : Type} (m : mat4 F) : Fin 4 → vec4 F
  | 0 => m.col0
  | 1 => m.col1
  | 2 => m.col2
  | 3 => m.col3

/-- Element read `m[c][r]`. -/
def mat4.get {F : Type} (m : mat4 F) (c r : Fin 4) : F := (m.col c).get r

/-- Element write `m[c][r] = a`. -/
def mat4.set {F : Type} (m : mat4 F) (c r : Fin 4) (a : F) : mat4 F :=
  match c with
  | 0 => { m with col0 := m.col0.set r a }
  | 1 => { m with col1 := m.col1.set r a }
  | 2 => { m with col2 := m.col2.set r a }
  | 3 => { m with col3 := m.col3.set r a }

/-- The matrix type of the importer: `a`..`d` are the rows, `1`..`4` the columns. -/
structure aiMatrix4x4 (F : Type) where
  a1 : F
  a2 : F
  a3 : F
  a4 : F
  b1 : F
  b2 : F
  b3 : F
  b4 : F
  c1 : F
  c2 : F
  c3 : F
  c4 : F
  d1 : F
  d2 : F
  d3 : F
  d4 : F
deriving DecidableEq, Repr

/-- The element of a source matrix at row `r` (`a`..`d`), column `c` (`1`..`4`). -/
def aiMatrix4x4.elem {F : Type} (m : aiMatrix4x4 F) : Fin 4 → Fin 4 → F
  | 0, 0 => m.a1 | 0, 1 => m.a2 | 0, 2 => m.a3 | 0, 3 => m.a4
  | 1, 0 => m.b1 | 1, 1 => m.b2 | 1, 2 => m.b3 | 1, 3 => m.b4
  | 2, 0 => m.c1 | 2, 1 => m.c2 | 2, 2 => m.c3 | 2, 3 => m.c4
  | 3, 0 => m.d1 | 3, 1 => m.d2 | 3, 2 => m.d3 | 3, 3 => m.d4

/-- The sixteen assignments of `aiMatrix4x4ToGlm`, in source order, on the local `to`. -/
def aiMatrix4x4ToGlm.assign {F : Type} (dst : mat4 F) (src : aiMatrix4x4 F) : mat4 F :=
  let dst := dst.set 0 0 src.a1
  let dst := dst.set 1 0 src.a2
  let dst := dst.set 2 0 src.a3
  let dst := dst.set 3 0 src.a4
  let dst := dst.set 0 1 src.b1
  let dst := dst.set 1 1 src.b2
  let dst := dst.set 2 1 src.b3
  let dst := dst.set 3 1 src.b4
  let dst := dst.set 0 2 src.c1
  let dst := dst.set 1 2 src.c2
  let dst := dst.set 2 2 src.c3
  let dst := dst.set 3 2 src.c4
  let dst := dst.set 0 3 src.d1
  let dst := dst.set 1 3 src.d2
  let dst := dst.set 2 3 src.d3
  let dst := dst.set 3 3 src.d4
  dst

/-- The function `AssetLoader::aiMatrix4x4ToGlm`. The local `glm::mat4 to;` is
default-constructed (here: all zero) and then written element by element. -/
def aiMatrix4x4ToGlm {F : Type} [Zero F] (src : aiMatrix4x4 F) : mat4 F :=
  let z : vec4 F := ⟨0, 0, 0, 0⟩
  aiMatrix4x4ToGlm.assign ⟨z, z, z, z⟩ src

/-! ## The imported scene (read-only input) -/

/-- The 3-vector of the importer. -/
structure aiVector3D (F : Type) where
  x : F
  y : F
  z : F
deriving DecidableEq, Repr

/-- One face of a source mesh: its vertex indices (`mNumIndices` is the length). -/
structure aiFace where
  mIndices : List Nat
deriving DecidableEq, Repr

/-- A source mesh. `mTextureCoords0` is `mTextureCoords[0]`, `none` when null. -/
structure aiMesh (F : Type) where
  mNumVertices : Nat
  mVertices : List (aiVector3D F)
  mNormals : List (aiVector3D F)
  mTextureCoords0 : Option (List (aiVector3D F))
  mTangents : List (aiVector3D F)
  mBitangents : List (aiVector3D F)
  mFaces : List aiFace
  mMaterialIndex : Nat

/-- The texture kinds of the importer. -/
inductive aiTextureType where
  | NONE | DIFFUSE | SPECULAR | AMBIENT | EMISSIVE | HEIGHT | NORMALS
  | SHININESS | OPACITY | DISPLACEMENT | LIGHTMAP | REFLECTION | UNKNOWN
deriving DecidableEq, Repr

/-- A source material, as far as the loader reads it: for each texture kind the paths
of its textures, so that `GetTextureCount(type)` is the length of `textures type` and
`GetTexture(type, i, &str)` stores its `i`-th element in `str`. -/
structure aiMaterial where
  textures : aiTextureType → List String

/-- A source node: transform, mesh indices into the scene, children. -/
inductive aiNode (F : Type) where
  | mk (mTransformation : aiMatrix4x4 F) (mMeshes : List Nat) (mChildren : List (aiNode F))

/-- The field `mTransformation`. -/
def aiNode.mTransformation {F : Type} : aiNode F → aiMatrix4x4 F
  | .mk t _ _ => t

/-- The field `mMeshes` (with `mNumMeshes` its length). -/
def aiNode.mMeshes {F : Type} : aiNode F → List Nat
  | .mk _ ms _ => ms

/-- The field `mChildren` (with `mNumChildren` its length). -/
def aiNode.mChildren {F : Type} : aiNode F → List (aiNode F)
  | .mk _ _ cs => cs

/-- The flag bit of the importer for a scene that was not read completely. -/
def AI_SCENE_FLAGS_INCOMPLETE : Nat := 1

/-- A source scene; `mRootNode` is `none` when null. -/
structure aiScene (F : Type) where
  mFlags : Nat
  mRootNode : Option (aiNode F)
  mMeshes : List (aiMesh F)
  mMaterials : List aiMaterial

/-! ## The runtime scene graph -/

/-- Modelled from the spec: `TextureInfo` is declared in `Rendering/Material.h`, which is
not among the sources; the loader uses the three fields below (GPU handle, shader-slot
name, cache key). -/
structure TextureInfo where
  id : Nat
  uniform : String
  path : String
deriving DecidableEq, Repr

/-- The vertex record filled by `Processmesh`. -/
structure Vertex (F : Type) where
  Position : vec3 F
  Normal : vec3 F
  Uv : vec2 F
  Tangent : vec3 F
  Bitangent : vec3 F
deriving DecidableEq, Repr

/-- Modelled from the spec: the body of the constructor `Mesh(vertices, indices)` is not
among the sources; the mesh holds the ordered vertex sequence and the ordered index
sequence it is given. -/
structure Mesh (F : Type) where
  vertices : List (Vertex F)
  indices : List Nat
deriving DecidableEq, Repr

/-- Modelled from the spec: `Material` is declared in `Rendering/Material.h`, which is not
among the sources; an ordered collection of texture bindings, empty when constructed. -/
structure Material where
  textures : List TextureInfo
deriving DecidableEq, Repr

/-- Modelled from the spec: `Material::AddTextures` appends the given bindings. -/
def Material.AddTextures (m : Material) (ts : List TextureInfo) : Material :=
  { textures := m.textures ++ ts }

/-- Modelled from the spec: `Renderable` is declared in `Rendering/Renderable.h`, which is
not among the sources; it owns one mesh and one material. -/
structure Renderable (F : Type) where
  mesh : Mesh F
  material : Material
deriving DecidableEq, Repr

/-- Modelled from the spec: `RenderComponent` is declared in
`Rendering/RenderComponent.h`, which is not among the sources; an ordered list of
renderables, empty when constructed. -/
structure RenderComponent (F : Type) where
  renderables : List (Renderable F)
deriving DecidableEq, Repr

/-- Modelled from the spec: `RenderComponent::addRenderable` appends. -/
def RenderComponent.addRenderable {F : Type} (rc : RenderComponent F) (r : Renderable F) :
    RenderComponent F :=
  { renderables := rc.renderables ++ [r] }

/-- Modelled from the spec: `Entity` is declared in `EntitySystems/Entity.h`, which is not
among the sources; a local transform (`none` until `setLocalTransform` is called), the
ordered list of child pointers, and the render component if one is attached. -/
structure Entity (F : Type) where
  localTransform : Option (mat4 F)
  children : List Nat
  renderComponent : Option (RenderComponent F)
deriving DecidableEq, Repr

/-- Modelled from the spec: the entity made by `new Entity()`. -/
def Entity.new {F : Type} : Entity F :=
  { localTransform := none, children := [], renderComponent := none }

/-- Modelled from the spec: `Entity::setLocalTransform`. -/
def Entity.setLocalTransform {F : Type} (e : Entity F) (m : mat4 F) : Entity F :=
  { e with localTransform := some m }

/-- Modelled from the spec: `Entity::addChild` registers the pointer as last child. -/
def Entity.addChild {F : Type} (e : Entity F) (child : Nat) : Entity F :=
  { e with children := e.children ++ [child] }

/-- Modelled from the spec: `Entity::addComponent<RenderComponent>` attaches a fresh
render component if none is present. -/
def Entity.addRenderComponent {F : Type} (e : Entity F) : Entity F :=
  match e.renderComponent with
  | some _ => e
  | none => { e with renderComponent := some { renderables := [] } }

/-! ## The outside world and the loader state -/

/-- The pixel formats `TextureFromFile` chooses between. -/
inductive GLFormat where
  | GL_RED | GL_RGB | GL_RGBA
deriving DecidableEq, Repr

/-- What the image decoder hands back for a readable file. -/
structure Image where
  width : Int
  height : Int
  nrComponents : Int
  data : List Nat
deriving DecidableEq, Repr

/-- The observable events of an import: an entry into `TextureFromFile` with its two
arguments, and the GPU API calls it makes (`format` is `none` when the local was never
assigned). -/
inductive Event where
  | TextureFromFile (path directory : String)
  | glGenTextures (textureID : Nat)
  | glBindTexture (texture : Nat)
  | glTexImage2D (format : Option GLFormat) (width height : Int) (data : List Nat)
  | glGenerateMipmap
  | glTexParameteri (pname param : String)
deriving DecidableEq, Repr

/-- Whether an event is a call into the GPU API. -/
def Event.isGpuCall : Event → Bool
  | .TextureFromFile _ _ => false
  | _ => true

/-- The external collaborators: the scene importer (`none`: no scene), the image decoder
(`none`: null data) and the name `glGenTextures` hands out after a given history; and
the four sampler-name constants declared `extern` in `Rendering/Constants.h`, whose
values are defined outside the sources. -/
structure Env (F : Type) where
  ReadFile : String → Option (aiScene F)
  stbi_load : String → Option Image
  glGenTextures : List Event → Nat
  SHADER_TEX_DIFFUSE : String
  SHADER_TEX_SPECULAR : String
  SHADER_TEX_NORMAL : String
  SHADER_TEX_HEIGHT : String

/-- The members of an `AssetLoader` together with the entity heap and the event trace. -/
structure State (F : Type) where
  textures_loaded : List TextureInfo
  directory : String
  heap : List (Entity F)
  trace : List Event

/-! ## The loader -/

namespace AssetLoader

/-- The method `AssetLoader::TextureFromFile`: returns the handle and the extended trace. -/
def TextureFromFile {F : Type} (env : Env F) (path directory : String) (trace : List Event) :
    Nat × List Event :=
  let trace := trace ++ [Event.TextureFromFile path directory]
  let filename := directory ++ "/" ++ path
  match env.stbi_load (C_Str filename) with
  | none => (toUnsignedInt (-1), trace)
  | some img =>
    let textureID := env.glGenTextures trace % 4294967296
    let format : Option GLFormat :=
      if img.nrComponents = 1 then some GLFormat.GL_RED
      else if img.nrComponents = 3 then some GLFormat.GL_RGB
      else if img.nrComponents = 4 then some GLFormat.GL_RGBA
      else none
    (textureID, trace ++
      [Event.glGenTextures textureID,
       Event.glBindTexture textureID,
       Event.glTexImage2D format img.width img.height img.data,
       Event.glGenerateMipmap,
       Event.glTexParameteri "GL_TEXTURE_WRAP_S" "GL_REPEAT",
       Event.glTexParameteri "GL_TEXTURE_WRAP_T" "GL_REPEAT",
       Event.glTexParameteri "GL_TEXTURE_MIN_FILTER" "GL_LINEAR",
       Event.glTexParameteri "GL_TEXTURE_MAG_FILTER" "GL_LINEAR",
       Event.glBindTexture 0])

/-- One iteration of the loop of `loadMaterialTextures`, for texture number `i` of the
slot, whose path is `str`; `textures` is the local result vector. -/
def loadMaterialTextures.step {F : Type} (env : Env F) (typeName : String) (i : Nat)
    (str : String) (textures : List TextureInfo) (st : State F) :
    List TextureInfo × State F :=
  match st.textures_loaded.find? (fun t => C_Str t.path == C_Str str) with
  | some t => (textures ++ [t], st)
  | none =>
    let r := TextureFromFile env (C_Str str) st.directory st.trace
    let texture : TextureInfo :=
      { id := r.1, uniform := typeName ++ toString i, path := C_Str str }
    (textures ++ [texture],
      { st with textures_loaded := st.textures_loaded ++ [texture], trace := r.2 })

/-- The loop of `loadMaterialTextures` from index `i` on, over the remaining paths. -/
def loadMaterialTextures.loop {F : Type} (env : Env F) (typeName : String) :
    Nat → List String → List TextureInfo → State F → List TextureInfo × State F
  | _, [], textures, st => (textures, st)
  | i, str :: rest, textures, st =>
    let r := loadMaterialTextures.step env typeName i str textures st
    loadMaterialTextures.loop env typeName (i + 1) rest r.1 r.2

/-- The method `AssetLoader::loadMaterialTextures`. -/
def loadMaterialTextures {F : Type} (env : Env F) (mat : aiMaterial) (type : aiTextureType)
    (typeName : String) (st : State F) : List TextureInfo × State F :=
  loadMaterialTextures.loop env typeName 0 (mat.textures type) [] st

/-- The conversion of an importer vector to a glm vector, field by field. -/
def Processmesh.toVec3 {F : Type} (v : aiVector3D F) : vec3 F := ⟨v.x, v.y, v.z⟩

/-- The vertex `Processmesh` builds for index `i`; `none` when one of the arrays it
reads has no element `i`. -/
def Processmesh.vertex {F : Type} [Zero F] (mesh : aiMesh F) (i : Nat) : Option (Vertex F) := do
  let position ← mesh.mVertices[i]?
  let normal ← mesh.mNormals[i]?
  let uv ← match mesh.mTextureCoords0 with
    | some coords => (coords[i]?).map (fun t => (⟨t.x, t.y⟩ : vec2 F))
    | none => some (⟨0, 0⟩ : vec2 F)
  let tangent ← mesh.mTangents[i]?
  let bitangent ← mesh.mBitangents[i]?
  pure { Position := Processmesh.toVec3 position, Normal := Processmesh.toVec3 normal,
         Uv := uv, Tangent := Processmesh.toVec3 tangent,
         Bitangent := Processmesh.toVec3 bitangent }

/-- The vertex loop of `Processmesh`: `remaining` iterations from index `i` on. -/
def Processmesh.vertexLoop {F : Type} [Zero F] (mesh : aiMesh F) :
    Nat → Nat → List (Vertex F) → Option (List (Vertex F))
  | 0, _, vertices => some vertices
  | remaining + 1, i, vertices => do
    let vertex ← Processmesh.vertex mesh i
    Processmesh.vertexLoop mesh remaining (i + 1) (vertices ++ [vertex])

/-- The face loop of `Processmesh`: every index of every face is pushed in order. -/
def Processmesh.faceLoop (faces : List aiFace) (indices : List Nat) : List Nat :=
  faces.foldl (fun indices face => face.mIndices.foldl (fun indices j => indices ++ [j]) indices)
    indices

/-- The method `AssetLoader::Processmesh`. -/
def Processmesh {F : Type} [Zero F] (env : Env F) (mesh : aiMesh F) (scene : aiScene F)
    (st : State F) : Option (Renderable F × State F) := do
  let vertices ← Processmesh.vertexLoop mesh mesh.mNumVertices 0 []
  let indices := Processmesh.faceLoop mesh.mFaces []
  let material ← scene.mMaterials[mesh.mMaterialIndex]?
  let textures : List TextureInfo := []
  let diffuseMaps :=
    loadMaterialTextures env material aiTextureType.DIFFUSE env.SHADER_TEX_DIFFUSE st
  let textures := textures ++ diffuseMaps.1
  let specularMaps :=
    loadMaterialTextures env material aiTextureType.SPECULAR env.SHADER_TEX_SPECULAR diffuseMaps.2
  let textures := textures ++ specularMaps.1
  let normalMaps :=
    loadMaterialTextures env material aiTextureType.HEIGHT env.SHADER_TEX_NORMAL specularMaps.2
  let textures := textures ++ normalMaps.1
  let heightMaps :=
    loadMaterialTextures env material aiTextureType.AMBIENT env.SHADER_TEX_HEIGHT normalMaps.2
  let textures := textures ++ heightMaps.1
  let renderable : Renderable F :=
    { mesh := { vertices := vertices, indices := indices },
      material := Material.AddTextures { textures := [] } textures }
  pure (renderable, heightMaps.2)

/-- A write through an `Entity*`: `none` when the pointer is not a live entity. -/
def modifyEntity {F : Type} (st : State F) (p : Nat) (f : Entity F → Entity F) :
    Option (State F) :=
  match st.heap[p]? with
  | none => none
  | some e => some { st with heap := st.heap.set p (f e) }

/-- The allocation `new Entity()`: the pointer and the extended heap. -/
def newEntity {F : Type} (st : State F) : Nat × State F :=
  (st.heap.length, { st with heap := st.heap ++ [Entity.new] })

/-- The mesh loop of `ProcessNode` over the remaining mesh indices of the node. -/
def ProcessNode.meshLoop {F : Type} [Zero F] (env : Env F) (entity : Nat) (scene : aiScene F) :
    List Nat → State F → Option (State F)
  | [], st => some st
  | idx :: rest, st => do
    let mesh ← scene.mMeshes[idx]?
    let r ← Processmesh env mesh scene st
    let e ← r.2.heap[entity]?
    let rc ← e.renderComponent
    let st ← modifyEntity r.2 entity
      (fun e => { e with renderComponent := some (rc.addRenderable r.1) })
    ProcessNode.meshLoop env entity scene rest st

mutual
/-- The method `AssetLoader::ProcessNode`. -/
def ProcessNode {F : Type} [Zero F] (env : Env F) (entity : Nat) (node : aiNode F)
    (scene : aiScene F) (st : State F) : Option (State F) :=
  match node with
  | .mk mTransformation mMeshes mChildren =>
    let afterMeshes : Option (State F) :=
      if mMeshes.length > 0 then
        (modifyEntity st entity Entity.addRenderComponent).bind
          (ProcessNode.meshLoop env entity scene mMeshes)
      else some st
    match afterMeshes with
    | none => none
    | some st => ProcessNode.childLoop env entity mTransformation mChildren scene st
/-- The child loop of `ProcessNode` over the remaining children of the node, whose
transform is `mTransformation`. -/
def ProcessNode.childLoop {F : Type} [Zero F] (env : Env F) (entity : Nat)
    (mTransformation : aiMatrix4x4 F) (children : List (aiNode F)) (scene : aiScene F)
    (st : State F) : Option (State F) :=
  match children with
  | [] => some st
  | child :: rest =>
    let a := newEntity st
    match modifyEntity a.2 a.1
        (fun e => e.setLocalTransform (aiMatrix4x4ToGlm mTransformation)) with
    | none => none
    | some st =>
      match modifyEntity st entity (fun e => e.addChild a.1) with
      | none => none
      | some st =>
        match ProcessNode env a.1 child scene st with
        | none => none
        | some st => ProcessNode.childLoop env entity mTransformation rest scene st
end

/-- The method `AssetLoader::LoadModel`: the returned pointer (`none` for `nullptr`) and
the state after the call. Character 47 is the slash. -/
def LoadModel {F : Type} [Zero F] (env : Env F) (path : String) (st : State F) :
    Option (Option Nat × State F) :=
  match env.ReadFile path with
  | none => some (none, st)
  | some scene =>
    if scene.mFlags &&& AI_SCENE_FLAGS_INCOMPLETE ≠ 0 then some (none, st)
    else
      match scene.mRootNode with
      | none => some (none, st)
      | some mRootNode =>
        let directory := substr0 path (find_last_of path (Char.ofNat 47))
        let st := { st with directory := directory }
        let rootEntity := newEntity st
        match ProcessNode env rootEntity.1 mRootNode scene rootEntity.2 with
        | none => none
        | some st => some (some rootEntity.1, { st with directory := "" })

end AssetLoader

/-! ## Well-formed input

The importer's contract for the arrays the loader indexes: what the loader needs in
order to stay within defined behaviour. -/

/-- Every per-vertex array the loader reads has `mNumVertices` elements (the first
texture-coordinate channel only when present) and the material index is in range. -/
def aiMesh.wellFormed {F : Type} (scene : aiScene F) (mesh : aiMesh F) : Bool :=
  decide (mesh.mNumVertices ≤ mesh.mVertices.length) &&
  decide (mesh.mNumVertices ≤ mesh.mNormals.length) &&
  (match mesh.mTextureCoords0 with
   | some coords => decide (mesh.mNumVertices ≤ coords.length)
   | none => true) &&
  decide (mesh.mNumVertices ≤ mesh.mTangents.length) &&
  decide (mesh.mNumVertices ≤ mesh.mBitangents.length) &&
  decide (mesh.mMaterialIndex < scene.mMaterials.length)

/-- A mesh index of a node refers to a well-formed mesh of the scene. -/
def aiScene.meshRefOK {F : Type} (scene : aiScene F) (idx : Nat) : Bool :=
  match scene.mMeshes[idx]? with
  | some mesh => mesh.wellFormed scene
  | none => false

mutual
/-- Every mesh index in the subtree of the node refers to a well-formed mesh. -/
def aiNode.wellFormed {F : Type} (scene : aiScene F) : aiNode F → Bool
  | .mk _ mMeshes mChildren =>
    mMeshes.all scene.meshRefOK && aiNode.wellFormedList scene mChildren
/-- The check `aiNode.wellFormed` on each node of a list. -/
def aiNode.wellFormedList {F : Type} (scene : aiScene F) : List (aiNode F) → Bool
  | [] => true
  | child :: rest => aiNode.wellFormed scene child && aiNode.wellFormedList scene rest
end

mutual
/-- The number of nodes in the subtree of a node, the node included. -/
def aiNode.count {F : Type} : aiNode F → Nat
  | .mk _ _ mChildren => 1 + aiNode.countList mChildren
/-- The number of nodes in the subtrees of a list of nodes. -/
def aiNode.countList {F : Type} : List (aiNode F) → Nat
  | [] => 0
  | child :: rest => aiNode.count child + aiNode.countList rest
end

/-! ## Vocabulary of the properties -/

/-- The paths `TextureFromFile` was entered with, in order. -/
def loadedPaths (trace : List Event) : List String :=
  trace.filterMap (fun e =>
    match e with
    | Event.TextureFromFile path _ => some path
    | _ => none)

/-- One call of `loadMaterialTextures` made by an import: its three arguments. -/
structure TextureCall where
  mat : aiMaterial
  type : aiTextureType
  typeName : String

/-- A sequence of `loadMaterialTextures` calls run one after the other on the loader:
the results of the calls, in order, and the final state. -/
def loadMaterialTexturesSeq {F : Type} (env : Env F) :
    List TextureCall → State F → List (List TextureInfo) × State F
  | [], st => ([], st)
  | call :: rest, st =>
    let r := AssetLoader.loadMaterialTextures env call.mat call.type call.typeName st
    let rs := loadMaterialTexturesSeq env rest r.2
    (r.1 :: rs.1, rs.2)

/-- The state `st'` comes from `st` by texture resolution only: heap and directory are
the same, the cache and the trace are extended, every new cache entry stands for one
entry into `TextureFromFile` with the entry's path, and distinctness of the cached paths
is kept. -/
def CacheGrows {F : Type} (st st' : State F) : Prop :=
  st'.heap = st.heap ∧ st'.directory = st.directory ∧
  ∃ (added : List TextureInfo) (new : List Event),
    st'.textures_loaded = st.textures_loaded ++ added ∧
    st'.trace = st.trace ++ new ∧
    loadedPaths new = added.map (fun t => t.path) ∧
    ((st.textures_loaded.map (fun t => t.path)).Nodup →
      (st'.textures_loaded.map (fun t => t.path)).Nodup)

/-- The handle `TextureFromFile` returns when the decoder fails: `-1` as `unsigned int`. -/
def sentinelHandle : Nat := 4294967295

/-- Every cache entry whose C string path is `key` carries the sentinel handle. -/
def SentinelCached {F : Type} (key : String) (st : State F) : Prop :=
  ∀ t ∈ st.textures_loaded, C_Str t.path = key → t.id = sentinelHandle

/-- The renderable `r` is what `Processmesh` returns for scene mesh number `idx`. -/
def IsProcessmeshResult {F : Type} [Zero F] (env : Env F) (scene : aiScene F) (idx : Nat)
    (r : Renderable F) : Prop :=
  ∃ mesh st st', scene.mMeshes[idx]? = some mesh ∧
    AssetLoader.Processmesh env mesh scene st = some (r, st')

mutual
/-- The entity at pointer `p` of the heap is the entity of source node `node`: it is
live, it and the node satisfy `Q`, it has exactly as many children as the node, and its
`i`-th child is, in the same sense, the entity of the node's `i`-th child. -/
def EntityOf {F : Type} (Q : aiNode F → Entity F → Prop) (heap : List (Entity F)) :
    Nat → aiNode F → Prop
  | p, .mk t ms cs =>
    ∃ e, heap[p]? = some e ∧ Q (.mk t ms cs) e ∧ e.children.length = cs.length ∧
      EntityOfList Q heap e.children cs
/-- Pointwise `EntityOf` between a list of pointers and a list of nodes. -/
def EntityOfList {F : Type} (Q : aiNode F → Entity F → Prop) (heap : List (Entity F)) :
    List Nat → List (aiNode F) → Prop
  | [], [] => True
  | p :: ps, c :: cs => EntityOf Q heap p c ∧ EntityOfList Q heap ps cs
  | [], _ :: _ => False
  | _ :: _, [] => False
end

/-- The pointers `ProcessNode` hands to the children of a node when the heap has `base`
entities at the start of the child loop: each child is allocated right after the
subtree of its predecessor. -/
def childPointers {F : Type} (base : Nat) : List (aiNode F) → List Nat
  | [] => []
  | child :: rest => base :: childPointers (base + child.count) rest

mutual
/-- As `EntityOf`, with the pointers spelt out: the children of the entity at `p` are
the `childPointers` from `base` on. -/
def BuiltAt {F : Type} (Q : aiNode F → Entity F → Prop) (heap : List (Entity F)) :
    Nat → Nat → aiNode F → Prop
  | p, base, .mk t ms cs =>
    ∃ e, heap[p]? = some e ∧ Q (.mk t ms cs) e ∧ e.children = childPointers base cs ∧
      BuiltAtList Q heap base cs
/-- The subtrees of a list of sibling nodes, the first child being at pointer `base`. -/
def BuiltAtList {F : Type} (Q : aiNode F → Entity F → Prop) (heap : List (Entity F)) :
    Nat → List (aiNode F) → Prop
  | _, [] => True
  | base, child :: rest =>
    BuiltAt Q heap base (base + 1) child ∧ BuiltAtList Q heap (base + child.count) rest
end

/-- The render component the claim expects on the entity of a node: present exactly
when the node references a mesh, and then holding one renderable per mesh reference,
the `k`-th being a `Processmesh` result for scene mesh `mMeshes[k]`. -/
def RenderComponentMatches {F : Type} [Zero F] (env : Env F) (scene : aiScene F)
    (node : aiNode F) (e : Entity F) : Prop :=
  (e.renderComponent.isSome = true ↔ 0 < node.mMeshes.length) ∧
  ∀ rc, e.renderComponent = some rc →
    List.Forall₂ (IsProcessmeshResult env scene) node.mMeshes rc.renderables

/-- Pointer `p` is a child of exactly one entity of the heap, and is listed there once. -/
def HasUniqueParent {F : Type} (heap : List (Entity F)) (p : Nat) : Prop :=
  ∃ (q : Nat) (e : Entity F), heap[q]? = some e ∧ e.children.count p = 1 ∧
    ∀ (q' : Nat) (e' : Entity F), heap[q']? = some e' → q' ≠ q → p ∉ e'.children

/-- Among the entities whose pointer satisfies `S`, exactly one has `x` as a child, and
lists it once. -/
def UniqueParentIn {F : Type} (heap : List (Entity F)) (S : Nat → Prop) (x : Nat) : Prop :=
  ∃ (q : Nat) (e : Entity F), S q ∧ heap[q]? = some e ∧ e.children.count x = 1 ∧
    ∀ (q' : Nat) (e' : Entity F), S q' → heap[q']? = some e' → q' ≠ q → x ∉ e'.children

/-- Pointer `p` is a child of no entity of the heap. -/
def HasNoParent {F : Type} (heap : List (Entity F)) (p : Nat) : Prop :=
  ∀ e ∈ heap, p ∉ e.children

/-- No entity of the heap has a child pointer outside the heap. -/
def HeapClosed {F : Type} (heap : List (Entity F)) : Prop :=
  ∀ e ∈ heap, ∀ c ∈ e.children, c < heap.length

/-! ## A concrete import

A root node without meshes and one child node with one triangle whose material names
the same texture file once as diffuse and once as specular map. The model file exists
in two directories; the texture file can be decoded in the first one only. -/

namespace Example

/-- The transform of the root node. -/
def rootTransform : aiMatrix4x4 Int := ⟨1, 2, 3, 4, 5, 6, 7, 8, 9, 10, 11, 12, 13, 14, 15, 16⟩

/-- The transform of the child node. -/
def childTransform : aiMatrix4x4 Int := ⟨1, 0, 0, 0, 0, 1, 0, 0, 0, 0, 1, 0, 20, 30, 40, 1⟩

/-- The material: `a.png` as diffuse and as specular texture. -/
def material : aiMaterial :=
  ⟨fun t =>
    match t with
    | aiTextureType.DIFFUSE => ["a.png"]
    | aiTextureType.SPECULAR => ["a.png"]
    | _ => []⟩

/-- The three corners of the triangle. -/
def corners : List (aiVector3D Int) := [⟨0, 0, 0⟩, ⟨1, 0, 0⟩, ⟨0, 1, 0⟩]

/-- A vector used for normals, tangents and bitangents. -/
def unitZ : aiVector3D Int := ⟨0, 0, 1⟩

/-- The mesh: one triangle, no texture coordinates. -/
def mesh : aiMesh Int :=
  { mNumVertices := 3, mVertices := corners, mNormals := [unitZ, unitZ, unitZ],
    mTextureCoords0 := none, mTangents := [unitZ, unitZ, unitZ],
    mBitangents := [unitZ, unitZ, unitZ], mFaces := [⟨[0, 1, 2]⟩], mMaterialIndex := 0 }

/-- The child node. -/
def child : aiNode Int := aiNode.mk childTransform [0] []

/-- The root node. -/
def root : aiNode Int := aiNode.mk rootTransform [] [child]

/-- The scene. -/
def scene : aiScene Int :=
  { mFlags := 0, mRootNode := some root, mMeshes := [mesh], mMaterials := [material] }

/-- The world: the model is readable as `dirA/m.obj` and as `dirB/m.obj`, the texture
only as `dirA/a.png`; the GPU hands out the trace length as texture name. -/
def env : Env Int :=
  { ReadFile := fun p => if p = "dirA/m.obj" ∨ p = "dirB/m.obj" then some scene else none,
    stbi_load := fun f => if f = "dirA/a.png" then some ⟨1, 1, 3, [255, 0, 0]⟩ else none,
    glGenTextures := fun trace => trace.length,
    SHADER_TEX_DIFFUSE := "diffuse",
    SHADER_TEX_SPECULAR := "specular",
    SHADER_TEX_NORMAL := "normal",
    SHADER_TEX_HEIGHT := "height" }

/-- A loader that has imported nothing yet. -/
def fresh : State Int := { textures_loaded := [], directory := "", heap := [], trace := [] }

/-- A state in which `a.png` is cached as the first diffuse texture, with handle 7. -/
def cached : State Int :=
  { textures_loaded := [⟨7, "diffuse0", "a.png"⟩], directory := "dirA", heap := [],
    trace := [] }

/-- The loader in directory `dirA`, with nothing cached and one fresh entity. -/
def inDirA : State Int :=
  { textures_loaded := [], directory := "dirA", heap := [Entity.new], trace := [] }

/-- The loader in directory `dirB`, with nothing cached and one fresh entity. -/
def inDirB : State Int :=
  { textures_loaded := [], directory := "dirB", heap := [Entity.new], trace := [] }

end Example

/-! # Theorems -/

open AssetLoader

/-! ## Transform conversion -/

/-- C10: for every source matrix and all row and column indices `r`, `c`, the element
`to[c][r]` of the matrix returned by `aiMatrix4x4ToGlm` is the source element at row
`r`, column `c`: all sixteen elements are copied unchanged to the transposed place. -/
theorem aiMatrix4x4ToGlm_transposes {F : Type} [Zero F] (m : aiMatrix4x4 F) (r c : Fin 4) :
    (aiMatrix4x4ToGlm m).get c r = m.elem r c := by
  fin_cases r <;> fin_cases c <;> rfl

/-! ## Import failure -/

/-- C5: `LoadModel` returns null exactly when the importer returned no scene, or the
scene has the incomplete flag set, or the scene has no root node; and whenever it
returns null the whole state (texture cache, directory, entity heap, trace) is the one
from before the call. -/
theorem LoadModel_null_iff_import_failure {F : Type} [Zero F] (env : Env F) (path : String)
    (st : State F) :
    ((∃ st', LoadModel env path st = some (none, st')) ↔
      (env.ReadFile path = none ∨
        ∃ scene, env.ReadFile path = some scene ∧
          (scene.mFlags &&& AI_SCENE_FLAGS_INCOMPLETE ≠ 0 ∨ scene.mRootNode = none))) ∧
    (∀ st', LoadModel env path st = some (none, st') → st' = st) := by
  unfold LoadModel
  cases hr : env.ReadFile path with
  | none => simp
  | some scene =>
    by_cases hf : scene.mFlags &&& AI_SCENE_FLAGS_INCOMPLETE ≠ 0
    · simp [hf]
    · simp only [if_neg hf]
      cases hroot : scene.mRootNode with
      | none => simp [hroot]
      | some root =>
        simp only []
        constructor
        · constructor
          · rintro ⟨st', h⟩
            split at h <;> simp at h
          · rintro (h | ⟨sc, hsc, h | h⟩)
            · simp at h
            · simp at hsc; subst hsc; exact absurd h hf
            · simp at hsc; subst hsc; simp [hroot] at h
        · intro st' h
          split at h <;> simp at h

/-! ## Slot names and the cache across imports -/

/-- C1 (the code at the failing input): with `a.png` cached as `diffuse0`, resolving it
as texture 0 of the specular slot returns the cached entry whole, slot name `diffuse0`
included; and a mesh whose material names `a.png` as diffuse and as specular texture
gets two bindings that share the handle and also share the slot name `diffuse0`. -/
theorem loadMaterialTextures_hit_keeps_cached_uniform :
    (loadMaterialTextures Example.env Example.material aiTextureType.SPECULAR "specular"
        Example.cached).1 = [⟨7, "diffuse0", "a.png"⟩] ∧
    (Processmesh Example.env Example.mesh Example.scene Example.inDirA).map
        (fun r => r.1.material.textures) =
      some [⟨1, "diffuse0", "a.png"⟩, ⟨1, "diffuse0", "a.png"⟩] := by
  decide

/-- C2 (the code at the failing input): a second `LoadModel` on the same loader, for the
model in `dirB`, starts from the cache the first import left: its binding for `a.png`
carries the handle uploaded from `dirA`, and over both imports `TextureFromFile` was
entered once only, with directory `dirA`. -/
theorem LoadModel_reuses_cache_of_earlier_import :
    ((LoadModel Example.env "dirA/m.obj" Example.fresh).bind
        (fun r => LoadModel Example.env "dirB/m.obj" r.2)).map
      (fun r => (r.1, r.2.textures_loaded, r.2.trace.filter (fun e => !e.isGpuCall),
        (r.2.heap[3]?.bind (fun e => e.renderComponent)).map
          (fun rc => rc.renderables.map (fun x => x.material.textures)))) =
    some (some 2, [⟨1, "diffuse0", "a.png"⟩], [Event.TextureFromFile "a.png" "dirA"],
      some [[⟨1, "diffuse0", "a.png"⟩, ⟨1, "diffuse0", "a.png"⟩]]) := by
  decide!

/-- C3 (the code at the failing input): the entity `ProcessNode` creates for the child
node gets the conversion of the root node's transform, not of the child's own. -/
theorem ProcessNode_child_gets_parent_transform :
    (ProcessNode Example.env 0 Example.root Example.scene Example.inDirB).map
        (fun st => st.heap.map (fun e => e.localTransform)) =
      some [none, some (aiMatrix4x4ToGlm Example.rootTransform)] ∧
    aiMatrix4x4ToGlm Example.rootTransform ≠ aiMatrix4x4ToGlm Example.childTransform := by
  decide
/-! ## Mesh extraction -/

/-- On a well-formed mesh the vertex of every index below `mNumVertices` can be built. -/
theorem Processmesh_vertex_isSome {F : Type} [Zero F] (scene : aiScene F) (mesh : aiMesh F)
    (hwf : mesh.wellFormed scene = true) (i : Nat) (hi : i < mesh.mNumVertices) :
    ∃ v, Processmesh.vertex mesh i = some v := by
  simp only [aiMesh.wellFormed, Bool.and_eq_true, decide_eq_true_eq] at hwf
  obtain ⟨⟨⟨⟨⟨h1, h2⟩, h3⟩, h4⟩, h5⟩, _⟩ := hwf
  have e1 : mesh.mVertices[i]? = some mesh.mVertices[i] := List.getElem?_eq_getElem (by omega)
  have e2 : mesh.mNormals[i]? = some mesh.mNormals[i] := List.getElem?_eq_getElem (by omega)
  have e4 : mesh.mTangents[i]? = some mesh.mTangents[i] := List.getElem?_eq_getElem (by omega)
  have e5 : mesh.mBitangents[i]? = some mesh.mBitangents[i] :=
    List.getElem?_eq_getElem (by omega)
  unfold Processmesh.vertex
  cases hc : mesh.mTextureCoords0 with
  | none => simp [e1, e2, e4, e5]
  | some coords =>
    rw [hc] at h3
    simp only [decide_eq_true_eq] at h3
    have e3 : coords[i]? = some coords[i] := List.getElem?_eq_getElem (by omega)
    simp [e1, e2, e3, e4, e5]

/-- The vertex loop returns when each of its vertices can be built, and pushes one
vertex per iteration. -/
theorem Processmesh_vertexLoop_length {F : Type} [Zero F] (mesh : aiMesh F) :
    ∀ (k i : Nat) (acc : List (Vertex F)),
      (∀ j, i ≤ j → j < i + k → ∃ v, Processmesh.vertex mesh j = some v) →
      ∃ vs, Processmesh.vertexLoop mesh k i acc = some vs ∧ vs.length = acc.length + k := by
  intro k
  induction k with
  | zero => intro i acc _; exact ⟨acc, rfl, rfl⟩
  | succ k ih =>
    intro i acc h
    obtain ⟨v, hv⟩ := h i (Nat.le_refl i) (by omega)
    obtain ⟨vs, hvs, hlen⟩ := ih (i + 1) (acc ++ [v]) (fun j h1 h2 => h j (by omega) (by omega))
    refine ⟨vs, ?_, ?_⟩
    · simp [Processmesh.vertexLoop, hv, hvs]
    · simp at hlen; omega

/-- The face loop appends the index lists of the faces, in order. -/
theorem Processmesh_faceLoop_flatten (faces : List aiFace) :
    ∀ acc : List Nat,
      Processmesh.faceLoop faces acc = acc ++ (faces.map (fun f => f.mIndices)).flatten := by
  have inner : ∀ (js acc : List Nat), js.foldl (fun indices j => indices ++ [j]) acc = acc ++ js := by
    intro js
    induction js with
    | nil => intro acc; simp
    | cons j js ih => intro acc; simp [ih]
  induction faces with
  | nil => intro acc; simp [Processmesh.faceLoop]
  | cons f fs ih =>
    intro acc
    have := ih (acc ++ f.mIndices)
    simp only [Processmesh.faceLoop, inner, List.foldl_cons, List.map_cons,
      List.flatten_cons] at this ⊢
    rw [this, List.append_assoc]

/-- Faces of three indices each flatten to three times as many indices as faces. -/
theorem flatten_length_of_triangles (faces : List aiFace)
    (h : ∀ f ∈ faces, f.mIndices.length = 3) :
    (faces.map (fun f => f.mIndices)).flatten.length = 3 * faces.length := by
  induction faces with
  | nil => rfl
  | cons f fs ih =>
    have h1 := h f (List.mem_cons_self f fs)
    have h2 := ih (fun g hg => h g (List.mem_cons_of_mem f hg))
    simp [h1, h2]
    omega

/-! ## Texture resolution -/

/-- Taking the C string of a C string changes nothing. -/
theorem C_Str_idem (s : String) : C_Str (C_Str s) = C_Str s := by
  have h : ∀ l : List Char,
      (l.takeWhile (fun ch => ch != Char.ofNat 0)).takeWhile (fun ch => ch != Char.ofNat 0) =
        l.takeWhile (fun ch => ch != Char.ofNat 0) := by
    intro l
    induction l with
    | nil => rfl
    | cons a l ih =>
      by_cases ha : (a != Char.ofNat 0) = true
      · simp [List.takeWhile_cons, ha, ih]
      · simp [List.takeWhile_cons, ha]
  simp only [C_Str, h]

/-- The loaded paths of a concatenated trace. -/
theorem loadedPaths_append (a b : List Event) :
    loadedPaths (a ++ b) = loadedPaths a ++ loadedPaths b := by
  simp [loadedPaths, List.filterMap_append]

/-- No step at all is texture resolution. -/
theorem CacheGrows_refl {F : Type} (st : State F) : CacheGrows st st :=
  ⟨rfl, rfl, [], [], by simp, by simp, rfl, by simp⟩

/-- Texture resolution composes. -/
theorem CacheGrows_trans {F : Type} {a b c : State F} (h1 : CacheGrows a b)
    (h2 : CacheGrows b c) : CacheGrows a c := by
  obtain ⟨hh1, hd1, ad1, n1, hc1, ht1, hl1, hn1⟩ := h1
  obtain ⟨hh2, hd2, ad2, n2, hc2, ht2, hl2, hn2⟩ := h2
  refine ⟨hh2.trans hh1, hd2.trans hd1, ad1 ++ ad2, n1 ++ n2, ?_, ?_, ?_, fun h => hn2 (hn1 h)⟩
  · rw [hc2, hc1, List.append_assoc]
  · rw [ht2, ht1, List.append_assoc]
  · rw [loadedPaths_append, hl1, hl2, List.map_append]

/-- The trace after `TextureFromFile` extends the one before by exactly one entry into
`TextureFromFile`, with the given path, and by GPU calls. -/
theorem TextureFromFile_trace {F : Type} (env : Env F) (path directory : String)
    (trace : List Event) :
    ∃ new, (TextureFromFile env path directory trace).2 = trace ++ new ∧
      loadedPaths new = [path] := by
  unfold TextureFromFile
  simp only []
  split
  · exact ⟨[Event.TextureFromFile path directory], rfl, rfl⟩
  · refine ⟨[Event.TextureFromFile path directory] ++ _, (List.append_assoc _ _ _), ?_⟩
    simp [loadedPaths]

/-- When the decoder fails, `TextureFromFile` returns the sentinel and logs its entry
only. -/
theorem TextureFromFile_fail {F : Type} (env : Env F) (path directory : String)
    (trace : List Event) (h : env.stbi_load (C_Str (directory ++ "/" ++ path)) = none) :
    TextureFromFile env path directory trace =
      (sentinelHandle, trace ++ [Event.TextureFromFile path directory]) := by
  unfold TextureFromFile
  simp only [h]
  rfl

/-- One iteration of `loadMaterialTextures` is texture resolution and appends one
binding, which is in the cache afterwards and has the C string of the requested path. -/
theorem loadMaterialTextures_step_grows {F : Type} (env : Env F) (typeName : String) (i : Nat)
    (str : String) (textures : List TextureInfo) (st : State F) :
    CacheGrows st (loadMaterialTextures.step env typeName i str textures st).2 ∧
    ∃ b, (loadMaterialTextures.step env typeName i str textures st).1 = textures ++ [b] ∧
      b ∈ (loadMaterialTextures.step env typeName i str textures st).2.textures_loaded ∧
      C_Str b.path = C_Str str := by
  unfold loadMaterialTextures.step
  cases hf : st.textures_loaded.find? (fun t => C_Str t.path == C_Str str) with
  | some t =>
    refine ⟨CacheGrows_refl st, t, rfl, List.mem_of_find?_eq_some hf, ?_⟩
    have := List.find?_some hf
    simpa using this
  | none =>
    obtain ⟨new, hnew, hpaths⟩ := TextureFromFile_trace env (C_Str str) st.directory st.trace
    refine ⟨⟨rfl, rfl, [_], new, rfl, hnew, by simp [hpaths], ?_⟩, _, rfl, by simp, C_Str_idem str⟩
    intro hnd
    simp only [List.map_append, List.map_cons, List.map_nil]
    rw [List.nodup_append]
    refine ⟨hnd, List.nodup_singleton _, ?_⟩
    intro p hp hp2
    simp only [List.mem_singleton] at hp2
    subst hp2
    obtain ⟨t, ht, hpath⟩ := List.mem_map.mp hp
    have := List.find?_eq_none.mp hf t ht
    apply this
    simp only [beq_iff_eq]
    rw [hpath, C_Str_idem]

/-- The loop of `loadMaterialTextures` is texture resolution and appends one binding per
remaining path, each in the cache afterwards. -/
theorem loadMaterialTextures_loop_grows {F : Type} (env : Env F) (typeName : String) :
    ∀ (rest : List String) (i : Nat) (textures : List TextureInfo) (st : State F),
      CacheGrows st (loadMaterialTextures.loop env typeName i rest textures st).2 ∧
      ∃ bs, (loadMaterialTextures.loop env typeName i rest textures st).1 = textures ++ bs ∧
        bs.length = rest.length ∧
        ∀ b ∈ bs, b ∈ (loadMaterialTextures.loop env typeName i rest textures st).2.textures_loaded := by
  intro rest
  induction rest with
  | nil => intro i textures st; exact ⟨CacheGrows_refl st, [], by simp [loadMaterialTextures.loop], rfl, by simp⟩
  | cons str rest ih =>
    intro i textures st
    obtain ⟨hg, b, hb, hmem, _⟩ := loadMaterialTextures_step_grows env typeName i str textures st
    obtain ⟨hg2, bs, hbs, hlen, hall⟩ := ih (i + 1)
      (loadMaterialTextures.step env typeName i str textures st).1
      (loadMaterialTextures.step env typeName i str textures st).2
    simp only [loadMaterialTextures.loop]
    refine ⟨CacheGrows_trans hg hg2, b :: bs, ?_, by simp [hlen], ?_⟩
    · rw [hbs, hb]; simp
    · intro x hx
      rcases List.mem_cons.mp hx with rfl | hx
      · obtain ⟨_, _, added, _, hc, _⟩ := hg2
        rw [hc]; exact List.mem_append_left _ hmem
      · exact hall x hx

/-- The method `loadMaterialTextures` is texture resolution and returns one binding per
texture of the slot, each in the cache afterwards. -/
theorem loadMaterialTextures_grows {F : Type} (env : Env F) (mat : aiMaterial)
    (type : aiTextureType) (typeName : String) (st : State F) :
    CacheGrows st (loadMaterialTextures env mat type typeName st).2 ∧
    (loadMaterialTextures env mat type typeName st).1.length = (mat.textures type).length ∧
    ∀ b ∈ (loadMaterialTextures env mat type typeName st).1,
      b ∈ (loadMaterialTextures env mat type typeName st).2.textures_loaded := by
  obtain ⟨hg, bs, hbs, hlen, hall⟩ :=
    loadMaterialTextures_loop_grows env typeName (mat.textures type) 0 [] st
  unfold loadMaterialTextures
  refine ⟨hg, ?_, ?_⟩
  · rw [hbs]; simpa using hlen
  · rw [hbs]; simpa using hall

/-- A sequence of `loadMaterialTextures` calls is texture resolution, and every binding
it returns is in the final cache. -/
theorem loadMaterialTexturesSeq_grows {F : Type} (env : Env F) :
    ∀ (calls : List TextureCall) (st : State F),
      CacheGrows st (loadMaterialTexturesSeq env calls st).2 ∧
      ∀ bs ∈ (loadMaterialTexturesSeq env calls st).1, ∀ b ∈ bs,
        b ∈ (loadMaterialTexturesSeq env calls st).2.textures_loaded := by
  intro calls
  induction calls with
  | nil => intro st; exact ⟨CacheGrows_refl st, by simp [loadMaterialTexturesSeq]⟩
  | cons call rest ih =>
    intro st
    obtain ⟨hg, _, hall⟩ := loadMaterialTextures_grows env call.mat call.type call.typeName st
    obtain ⟨hg2, hall2⟩ := ih (loadMaterialTextures env call.mat call.type call.typeName st).2
    simp only [loadMaterialTexturesSeq]
    refine ⟨CacheGrows_trans hg hg2, ?_⟩
    intro bs hbs b hb
    rcases List.mem_cons.mp hbs with rfl | hbs
    · obtain ⟨_, _, added, _, hc, _⟩ := hg2
      rw [hc]; exact List.mem_append_left _ (hall b hb)
    · exact hall2 bs hbs b hb

/-- Indexing into the second part of a concatenation. -/
theorem getElem?_append_length_add {α : Type} (l₁ l₂ : List α) (k : Nat) :
    (l₁ ++ l₂)[l₁.length + k]? = l₂[k]? := by
  rw [List.getElem?_append_right (by omega)]
  congr 1
  omega

/-- One iteration keeps `SentinelCached` for a path that cannot be decoded, and the
binding it appends for that path carries the sentinel. -/
theorem loadMaterialTextures_step_sentinel {F : Type} (env : Env F) (key : String)
    (typeName : String) (i : Nat) (str : String) (textures : List TextureInfo) (st : State F)
    (hfail : env.stbi_load (C_Str (st.directory ++ "/" ++ key)) = none)
    (hinv : SentinelCached key st) :
    SentinelCached key (loadMaterialTextures.step env typeName i str textures st).2 ∧
    (C_Str str = key →
      ∃ b, (loadMaterialTextures.step env typeName i str textures st).1 = textures ++ [b] ∧
        b.id = sentinelHandle) := by
  unfold loadMaterialTextures.step
  cases hf : st.textures_loaded.find? (fun t => C_Str t.path == C_Str str) with
  | some t =>
    refine ⟨hinv, fun hs => ⟨t, rfl, ?_⟩⟩
    have h1 := List.find?_some hf
    simp only [beq_iff_eq] at h1
    exact hinv t (List.mem_of_find?_eq_some hf) (h1.trans hs)
  | none =>
    constructor
    · intro t ht hk
      simp only [List.mem_append, List.mem_singleton] at ht
      rcases ht with ht | rfl
      · exact hinv t ht hk
      · simp only [C_Str_idem] at hk
        simp only [hk, TextureFromFile_fail env key st.directory st.trace hfail]
    · intro hs
      refine ⟨_, rfl, ?_⟩
      simp only [hs, TextureFromFile_fail env key st.directory st.trace hfail]

/-- In the result of the loop, the binding of every remaining texture with the failing
path carries the sentinel. -/
theorem loadMaterialTextures_loop_sentinel {F : Type} (env : Env F) (key : String)
    (typeName : String) :
    ∀ (rest : List String) (i : Nat) (textures : List TextureInfo) (st : State F),
      env.stbi_load (C_Str (st.directory ++ "/" ++ key)) = none →
      SentinelCached key st →
      ∀ (k : Nat) (s : String), rest[k]? = some s → C_Str s = key →
        ∃ b, (loadMaterialTextures.loop env typeName i rest textures st).1[textures.length + k]? =
            some b ∧ b.id = sentinelHandle := by
  intro rest
  induction rest with
  | nil => intro i textures st _ _ k s hk; simp at hk
  | cons str rest ih =>
    intro i textures st hfail hinv k s hk hs
    obtain ⟨hinv2, hb⟩ :=
      loadMaterialTextures_step_sentinel env key typeName i str textures st hfail hinv
    obtain ⟨hg, b0, hb0, _, _⟩ := loadMaterialTextures_step_grows env typeName i str textures st
    have hdir := hg.2.1
    simp only [loadMaterialTextures.loop]
    cases k with
    | zero =>
      simp only [List.getElem?_cons_zero, Option.some.injEq] at hk
      subst hk
      obtain ⟨b, hb1, hb2⟩ := hb hs
      obtain ⟨_, bs, hbs, _, _⟩ := loadMaterialTextures_loop_grows env typeName rest (i + 1)
        (loadMaterialTextures.step env typeName i str textures st).1
        (loadMaterialTextures.step env typeName i str textures st).2
      refine ⟨b, ?_, hb2⟩
      rw [hbs, hb1, List.append_assoc, getElem?_append_length_add]
      simp
    | succ k =>
      simp only [List.getElem?_cons_succ] at hk
      obtain ⟨b, hb1, hb2⟩ := ih (i + 1)
        (loadMaterialTextures.step env typeName i str textures st).1
        (loadMaterialTextures.step env typeName i str textures st).2
        (by rw [hdir]; exact hfail) hinv2 k s hk hs
      refine ⟨b, ?_, hb2⟩
      rw [hb0] at hb1 ⊢
      simp only [List.length_append, List.length_singleton] at hb1
      rw [← hb1]
      congr 1
      omega

/-- The loop keeps `SentinelCached` for a path that cannot be decoded. -/
theorem loadMaterialTextures_loop_sentinel_kept {F : Type} (env : Env F) (key : String)
    (typeName : String) :
    ∀ (rest : List String) (i : Nat) (textures : List TextureInfo) (st : State F),
      env.stbi_load (C_Str (st.directory ++ "/" ++ key)) = none →
      SentinelCached key st →
      SentinelCached key (loadMaterialTextures.loop env typeName i rest textures st).2 := by
  intro rest
  induction rest with
  | nil => intro i textures st _ hinv; exact hinv
  | cons str rest ih =>
    intro i textures st hfail hinv
    obtain ⟨hinv2, _⟩ :=
      loadMaterialTextures_step_sentinel env key typeName i str textures st hfail hinv
    have hdir := (loadMaterialTextures_step_grows env typeName i str textures st).1.2.1
    simp only [loadMaterialTextures.loop]
    exact ih (i + 1) _ _ (by rw [hdir]; exact hfail) hinv2

/-- A sequence of calls keeps `SentinelCached` for a path that cannot be decoded. -/
theorem loadMaterialTexturesSeq_sentinel_kept {F : Type} (env : Env F) (key : String) :
    ∀ (calls : List TextureCall) (st : State F),
      env.stbi_load (C_Str (st.directory ++ "/" ++ key)) = none →
      SentinelCached key st →
      SentinelCached key (loadMaterialTexturesSeq env calls st).2 := by
  intro calls
  induction calls with
  | nil => intro st _ hinv; exact hinv
  | cons call rest ih =>
    intro st hfail hinv
    have hdir := (loadMaterialTextures_grows env call.mat call.type call.typeName st).1.2.1
    simp only [loadMaterialTexturesSeq]
    refine ih _ (by rw [hdir]; exact hfail) ?_
    exact loadMaterialTextures_loop_sentinel_kept env key call.typeName (call.mat.textures call.type)
      0 [] st hfail hinv

/-- On a well-formed mesh `Processmesh` returns; it only resolves textures, and the mesh
of the renderable holds one vertex per source vertex and the flattened face indices. -/
theorem Processmesh_some {F : Type} [Zero F] (env : Env F) (mesh : aiMesh F)
    (scene : aiScene F) (st : State F) (hwf : mesh.wellFormed scene = true) :
    ∃ r st', Processmesh env mesh scene st = some (r, st') ∧ CacheGrows st st' ∧
      r.mesh.vertices.length = mesh.mNumVertices ∧
      r.mesh.indices = (mesh.mFaces.map (fun f => f.mIndices)).flatten := by
  obtain ⟨vs, hvs, hlen⟩ := Processmesh_vertexLoop_length mesh mesh.mNumVertices 0 []
    (fun j _ hj => Processmesh_vertex_isSome scene mesh hwf j (by omega))
  have hmat : mesh.mMaterialIndex < scene.mMaterials.length := by
    simp only [aiMesh.wellFormed, Bool.and_eq_true, decide_eq_true_eq] at hwf
    exact hwf.2
  have hm : scene.mMaterials[mesh.mMaterialIndex]? = some scene.mMaterials[mesh.mMaterialIndex] :=
    List.getElem?_eq_getElem hmat
  obtain ⟨g1, _, _⟩ := loadMaterialTextures_grows env scene.mMaterials[mesh.mMaterialIndex]
    aiTextureType.DIFFUSE env.SHADER_TEX_DIFFUSE st
  obtain ⟨g2, _, _⟩ := loadMaterialTextures_grows env scene.mMaterials[mesh.mMaterialIndex]
    aiTextureType.SPECULAR env.SHADER_TEX_SPECULAR
    (loadMaterialTextures env scene.mMaterials[mesh.mMaterialIndex]
      aiTextureType.DIFFUSE env.SHADER_TEX_DIFFUSE st).2
  obtain ⟨g3, _, _⟩ := loadMaterialTextures_grows env scene.mMaterials[mesh.mMaterialIndex]
    aiTextureType.HEIGHT env.SHADER_TEX_NORMAL
    (loadMaterialTextures env scene.mMaterials[mesh.mMaterialIndex]
      aiTextureType.SPECULAR env.SHADER_TEX_SPECULAR
      (loadMaterialTextures env scene.mMaterials[mesh.mMaterialIndex]
        aiTextureType.DIFFUSE env.SHADER_TEX_DIFFUSE st).2).2
  obtain ⟨g4, _, _⟩ := loadMaterialTextures_grows env scene.mMaterials[mesh.mMaterialIndex]
    aiTextureType.AMBIENT env.SHADER_TEX_HEIGHT
    (loadMaterialTextures env scene.mMaterials[mesh.mMaterialIndex]
      aiTextureType.HEIGHT env.SHADER_TEX_NORMAL
      (loadMaterialTextures env scene.mMaterials[mesh.mMaterialIndex]
        aiTextureType.SPECULAR env.SHADER_TEX_SPECULAR
        (loadMaterialTextures env scene.mMaterials[mesh.mMaterialIndex]
          aiTextureType.DIFFUSE env.SHADER_TEX_DIFFUSE st).2).2).2
  simp only [Processmesh, hvs, hm, Option.bind_eq_bind, Option.some_bind, Option.pure_def]
  refine ⟨_, _, rfl, CacheGrows_trans (CacheGrows_trans (CacheGrows_trans g1 g2) g3) g4, ?_, ?_⟩
  · simpa using hlen
  · simp [Processmesh_faceLoop_flatten]

/-- C8: for every source mesh whose arrays are as long as the loader reads them,
`Processmesh` returns a renderable whose vertex sequence has length `mNumVertices` and
whose index sequence is the concatenation, in face order, of the faces' index lists; so
when every face has 3 indices the index count is 3 times the face count. -/
theorem Processmesh_vertex_and_index_sequences {F : Type} [Zero F] (env : Env F)
    (mesh : aiMesh F) (scene : aiScene F) (st : State F)
    (hwf : mesh.wellFormed scene = true) :
    ∃ r st', Processmesh env mesh scene st = some (r, st') ∧
      r.mesh.vertices.length = mesh.mNumVertices ∧
      r.mesh.indices = (mesh.mFaces.map (fun f => f.mIndices)).flatten ∧
      ((∀ f ∈ mesh.mFaces, f.mIndices.length = 3) →
        r.mesh.indices.length = 3 * mesh.mFaces.length) := by
  obtain ⟨r, st', h, _, hv, hi⟩ := Processmesh_some env mesh scene st hwf
  exact ⟨r, st', h, hv, hi, fun h3 => by rw [hi]; exact flatten_length_of_triangles _ h3⟩

/-- Witness of C8 on the triangle mesh of the concrete import. -/
theorem Processmesh_vertex_and_index_sequences_witness :
    Example.mesh.wellFormed Example.scene = true ∧
    ∃ r st', Processmesh Example.env Example.mesh Example.scene Example.inDirB = some (r, st') ∧
      r.mesh.vertices.length = Example.mesh.mNumVertices ∧
      r.mesh.indices = (Example.mesh.mFaces.map (fun f => f.mIndices)).flatten ∧
      ((∀ f ∈ Example.mesh.mFaces, f.mIndices.length = 3) →
        r.mesh.indices.length = 3 * Example.mesh.mFaces.length) :=
  ⟨by decide, Processmesh_vertex_and_index_sequences Example.env Example.mesh Example.scene
    Example.inDirB (by decide)⟩

/-- C4: for every sequence of `loadMaterialTextures` calls run on a loader whose cache
entries have pairwise distinct paths, whatever the decoder answers: after every call of
the sequence the cache entries still have pairwise distinct paths, over the whole
sequence `TextureFromFile` is entered at most once with any given path, and any two
bindings returned for the same path carry the same handle. -/
theorem loadMaterialTextures_loads_each_path_once {F : Type} (env : Env F)
    (calls : List TextureCall) (st : State F)
    (hdistinct : (st.textures_loaded.map (fun t => t.path)).Nodup) :
    (∀ n, ((loadMaterialTexturesSeq env (calls.take n) st).2.textures_loaded.map
        (fun t => t.path)).Nodup) ∧
    (∃ new, (loadMaterialTexturesSeq env calls st).2.trace = st.trace ++ new ∧
      ∀ p, (loadedPaths new).count p ≤ 1) ∧
    (∀ b1 ∈ (loadMaterialTexturesSeq env calls st).1.flatten,
      ∀ b2 ∈ (loadMaterialTexturesSeq env calls st).1.flatten,
        b1.path = b2.path → b1.id = b2.id) := by
  obtain ⟨⟨_, _, added, new, hc, ht, hl, hn⟩, hall⟩ := loadMaterialTexturesSeq_grows env calls st
  have hnd := hn hdistinct
  refine ⟨fun n => (loadMaterialTexturesSeq_grows env (calls.take n) st).1.2.2.choose_spec.choose_spec.2.2.2 hdistinct,
    ⟨new, ht, ?_⟩, ?_⟩
  · intro p
    rw [hl]
    rw [hc, List.map_append] at hnd
    exact List.nodup_iff_count_le_one.mp (List.Nodup.of_append_right hnd) p
  · intro b1 h1 b2 h2 hp
    obtain ⟨l1, hl1, hb1⟩ := List.mem_flatten.mp h1
    obtain ⟨l2, hl2, hb2⟩ := List.mem_flatten.mp h2
    have m1 := hall l1 hl1 b1 hb1
    have m2 := hall l2 hl2 b2 hb2
    have := List.inj_on_of_nodup_map hnd m1 m2 hp
    rw [this]

/-- Witness of C4: the diffuse and the specular call of the concrete material. -/
theorem loadMaterialTextures_loads_each_path_once_witness :
    (Example.cached.textures_loaded.map (fun t => t.path)).Nodup ∧
    ((∀ n, ((loadMaterialTexturesSeq Example.env
        ([⟨Example.material, aiTextureType.DIFFUSE, "diffuse"⟩,
          ⟨Example.material, aiTextureType.SPECULAR, "specular"⟩].take n)
        Example.cached).2.textures_loaded.map (fun t => t.path)).Nodup) ∧
    (∃ new, (loadMaterialTexturesSeq Example.env
        [⟨Example.material, aiTextureType.DIFFUSE, "diffuse"⟩,
          ⟨Example.material, aiTextureType.SPECULAR, "specular"⟩] Example.cached).2.trace =
        Example.cached.trace ++ new ∧ ∀ p, (loadedPaths new).count p ≤ 1) ∧
    (∀ b1 ∈ (loadMaterialTexturesSeq Example.env
        [⟨Example.material, aiTextureType.DIFFUSE, "diffuse"⟩,
          ⟨Example.material, aiTextureType.SPECULAR, "specular"⟩] Example.cached).1.flatten,
      ∀ b2 ∈ (loadMaterialTexturesSeq Example.env
        [⟨Example.material, aiTextureType.DIFFUSE, "diffuse"⟩,
          ⟨Example.material, aiTextureType.SPECULAR, "specular"⟩] Example.cached).1.flatten,
        b1.path = b2.path → b1.id = b2.id)) :=
  ⟨by decide, loadMaterialTextures_loads_each_path_once Example.env _ Example.cached (by decide)⟩

/-! ## The scene graph builder -/

/-- A write through a live pointer replaces that heap cell. -/
theorem modifyEntity_some {F : Type} (st : State F) (p : Nat) (f : Entity F → Entity F)
    (e : Entity F) (h : st.heap[p]? = some e) :
    modifyEntity st p f = some { st with heap := st.heap.set p (f e) } := by
  simp [modifyEntity, h]

/-- The mesh loop of `ProcessNode` returns on valid mesh indices, touches no heap cell
but the entity, and appends to its render component one `Processmesh` result per index,
in order. -/
theorem ProcessNode_meshLoop_appends {F : Type} [Zero F] (env : Env F) (entity : Nat)
    (scene : aiScene F) :
    ∀ (idxs : List Nat) (st : State F) (e0 : Entity F) (rc : RenderComponent F),
      idxs.all scene.meshRefOK = true → st.heap[entity]? = some e0 →
      e0.renderComponent = some rc →
      ∃ st' rs, ProcessNode.meshLoop env entity scene idxs st = some st' ∧
        st'.heap.length = st.heap.length ∧
        (∀ q, q ≠ entity → st'.heap[q]? = st.heap[q]?) ∧
        st'.heap[entity]? = some
          { e0 with renderComponent := some { renderables := rc.renderables ++ rs } } ∧
        List.Forall₂ (IsProcessmeshResult env scene) idxs rs := by
  intro idxs
  induction idxs with
  | nil =>
    intro st e0 rc _ he hrc
    refine ⟨st, [], rfl, rfl, fun _ _ => rfl, ?_, List.Forall₂.nil⟩
    rw [he]
    cases e0; cases rc; simp_all
  | cons idx rest ih =>
    intro st e0 rc hall he hrc
    simp only [List.all_cons, Bool.and_eq_true] at hall
    obtain ⟨hidx, hrest⟩ := hall
    unfold aiScene.meshRefOK at hidx
    cases hm : scene.mMeshes[idx]? with
    | none => simp [hm] at hidx
    | some mesh =>
      simp only [hm] at hidx
      obtain ⟨r, st1, hp, hg, _, _⟩ := Processmesh_some env mesh scene st hidx
      have hheap : st1.heap = st.heap := hg.1
      have he1 : st1.heap[entity]? = some e0 := by rw [hheap]; exact he
      have hlt : entity < st.heap.length := (List.getElem?_eq_some.mp he).1
      obtain ⟨st', rs, hloop, hlen, hframe, hent, hf⟩ := ih
        ⟨st1.textures_loaded, st1.directory,
          st1.heap.set entity { e0 with renderComponent := some (rc.addRenderable r) },
          st1.trace⟩
        { e0 with renderComponent := some (rc.addRenderable r) } (rc.addRenderable r) hrest
        (by simp [hheap, hlt]) rfl
      refine ⟨st', r :: rs, ?_, ?_, ?_, ?_, List.Forall₂.cons ⟨mesh, st, st1, hm, hp⟩ hf⟩
      · simp only [ProcessNode.meshLoop, hm, hp, he1, hrc, Option.bind_eq_bind,
          Option.some_bind, modifyEntity_some _ _ _ _ he1]
        exact hloop
      · rw [hlen]; simp [hheap]
      · intro q hq
        rw [hframe q hq]
        simp only [hheap]
        exact List.getElem?_set_ne (Ne.symm hq)
      · rw [hent]
        simp [RenderComponent.addRenderable]

/-- A node counts itself and the nodes below its children. -/
theorem aiNode_count_eq {F : Type} (node : aiNode F) :
    node.count = 1 + aiNode.countList node.mChildren := by
  cases node
  simp [aiNode.count, aiNode.mChildren]

/-- One pointer per child. -/
theorem childPointers_length {F : Type} (base : Nat) (cs : List (aiNode F)) :
    (childPointers base cs).length = cs.length := by
  induction cs generalizing base with
  | nil => rfl
  | cons c rest ih => simp [childPointers, ih]

mutual
/-- The predicate `BuiltAt` only reads the cell at `p` and the cells of the subtree. -/
theorem BuiltAt_stable {F : Type} {Q : aiNode F → Entity F → Prop}
    {heap heap' : List (Entity F)} :
    ∀ (node : aiNode F) (p base : Nat), BuiltAt Q heap p base node →
      (∀ q, (q = p ∨ (base ≤ q ∧ q < base + aiNode.countList node.mChildren)) →
        heap'[q]? = heap[q]?) →
      BuiltAt Q heap' p base node
  | .mk t ms cs, p, base, h, hq => by
    unfold BuiltAt at h ⊢
    obtain ⟨e, he, hQ, hc, hl⟩ := h
    exact ⟨e, (hq p (Or.inl rfl)).trans he, hQ, hc,
      BuiltAtList_stable cs base hl (fun q h1 h2 => hq q (Or.inr ⟨h1, h2⟩))⟩
/-- The predicate `BuiltAtList` only reads the cells of the subtrees. -/
theorem BuiltAtList_stable {F : Type} {Q : aiNode F → Entity F → Prop}
    {heap heap' : List (Entity F)} :
    ∀ (cs : List (aiNode F)) (base : Nat), BuiltAtList Q heap base cs →
      (∀ q, base ≤ q → q < base + aiNode.countList cs → heap'[q]? = heap[q]?) →
      BuiltAtList Q heap' base cs
  | [], _, _, _ => by simp [BuiltAtList]
  | c :: rest, base, h, hq => by
    unfold BuiltAtList at h ⊢
    have hc := aiNode_count_eq c
    have hl : aiNode.countList (c :: rest) = c.count + aiNode.countList rest := by
      simp [aiNode.countList]
    refine ⟨BuiltAt_stable c base (base + 1) h.1 ?_,
      BuiltAtList_stable rest (base + c.count) h.2 ?_⟩
    · rintro q (rfl | ⟨h1, h2⟩)
      · exact hq q (Nat.le_refl _) (by omega)
      · exact hq q (by omega) (by omega)
    · intro q h1 h2
      exact hq q (by omega) (by omega)
end

mutual
/-- The pointer-explicit `BuiltAt` gives `EntityOf`, for any weaker local property. -/
theorem BuiltAt_entityOf {F : Type} {Q Q' : aiNode F → Entity F → Prop}
    {heap : List (Entity F)} (hQ : ∀ n e, Q n e → Q' n e) :
    ∀ (node : aiNode F) (p base : Nat), BuiltAt Q heap p base node → EntityOf Q' heap p node
  | .mk t ms cs, p, base, h => by
    unfold BuiltAt at h
    unfold EntityOf
    obtain ⟨e, he, hq, hc, hl⟩ := h
    have := BuiltAtList_entityOf hQ cs base hl
    refine ⟨e, he, hQ _ _ hq, ?_, by rw [hc]; exact this⟩
    rw [hc]
    exact childPointers_length base cs
/-- The pointer-explicit `BuiltAtList` gives `EntityOfList` on the child pointers. -/
theorem BuiltAtList_entityOf {F : Type} {Q Q' : aiNode F → Entity F → Prop}
    {heap : List (Entity F)} (hQ : ∀ n e, Q n e → Q' n e) :
    ∀ (cs : List (aiNode F)) (base : Nat), BuiltAtList Q heap base cs →
      EntityOfList Q' heap (childPointers base cs) cs
  | [], _, _ => by simp [childPointers, EntityOfList]
  | c :: rest, base, h => by
    unfold BuiltAtList at h
    simp only [childPointers, EntityOfList]
    exact ⟨BuiltAt_entityOf hQ c base (base + 1) h.1,
      BuiltAtList_entityOf hQ rest (base + c.count) h.2⟩
end

/-- A write through a live pointer returns, keeps the heap size, stores the new value
and leaves every other cell as it was. -/
theorem modifyEntity_spec {F : Type} (st : State F) (p : Nat) (f : Entity F → Entity F)
    (e : Entity F) (h : st.heap[p]? = some e) :
    ∃ st', modifyEntity st p f = some st' ∧ st'.heap.length = st.heap.length ∧
      st'.heap[p]? = some (f e) ∧ ∀ q, q ≠ p → st'.heap[q]? = st.heap[q]? := by
  have hlt : p < st.heap.length := (List.getElem?_eq_some.mp h).1
  refine ⟨_, modifyEntity_some st p f e h, by simp, by simp [hlt], ?_⟩
  intro q hq
  exact List.getElem?_set_ne (Ne.symm hq)

/-- The allocation returns the old heap size as pointer, to a fresh entity, and leaves
the old cells as they were. -/
theorem newEntity_spec {F : Type} (st : State F) :
    (newEntity st).1 = st.heap.length ∧
    (newEntity st).2.heap.length = st.heap.length + 1 ∧
    (newEntity st).2.heap[st.heap.length]? = some Entity.new ∧
    ∀ q, q < st.heap.length → (newEntity st).2.heap[q]? = st.heap[q]? := by
  refine ⟨rfl, by simp [newEntity], by simp [newEntity], ?_⟩
  intro q hq
  simp only [newEntity]
  exact List.getElem?_append_left hq

mutual
/-- On a well-formed node and a live entity without children and render component,
`ProcessNode` returns; it allocates one cell per descendant node, leaves the other old
cells as they were, and the entity is `BuiltAt` the old heap size for the node. -/
theorem ProcessNode_builds {F : Type} [Zero F] (env : Env F) (scene : aiScene F) :
    ∀ (node : aiNode F) (entity : Nat) (st : State F) (e0 : Entity F),
      node.wellFormed scene = true → st.heap[entity]? = some e0 →
      e0.children = [] → e0.renderComponent = none →
      ∃ st', ProcessNode env entity node scene st = some st' ∧
        st'.heap.length = st.heap.length + aiNode.countList node.mChildren ∧
        (∀ q, q < st.heap.length → q ≠ entity → st'.heap[q]? = st.heap[q]?) ∧
        BuiltAt (RenderComponentMatches env scene) st'.heap entity st.heap.length node
  | .mk t ms cs, entity, st, e0, hwf, he, hch, hrc => by
    simp only [aiNode.wellFormed, Bool.and_eq_true] at hwf
    obtain ⟨hms, hcs⟩ := hwf
    by_cases hpos : ms.length > 0
    · have hadd : e0.addRenderComponent =
          { e0 with renderComponent := some { renderables := [] } } := by
        simp [Entity.addRenderComponent, hrc]
      obtain ⟨st1, h1, hl1, hp1, hf1⟩ :=
        modifyEntity_spec st entity Entity.addRenderComponent e0 he
      obtain ⟨st2, rs, h2, hl2, hf2, hp2, hfor⟩ :=
        ProcessNode_meshLoop_appends env entity scene ms st1 _ { renderables := [] } hms hp1
          (by rw [hadd])
      obtain ⟨st3, h3, hl3, hf3, hp3, hb3⟩ :=
        ProcessNode_childLoop_builds env scene cs entity t st2 _ hcs hp2
      refine ⟨st3, ?_, ?_, ?_, ?_⟩
      · simp only [ProcessNode, hpos, if_true, h1, Option.bind, h2]
        exact h3
      · rw [hl3, hl2, hl1]; rfl
      · intro q hq hne
        rw [hf3 q (by rw [hl2, hl1]; exact hq) hne, hf2 q hne, hf1 q hne]
      · unfold BuiltAt
        refine ⟨_, hp3, ⟨?_, ?_⟩, ?_, ?_⟩
        · simp [aiNode.mMeshes]; omega
        · intro rc hrc'
          simp only [Option.some.injEq] at hrc'
          subst hrc'
          simpa [aiNode.mMeshes] using hfor
        · simp [hadd, hch, hl2, hl1]
        · rw [hl2, hl1] at hb3; exact hb3
    · obtain ⟨st3, h3, hl3, hf3, hp3, hb3⟩ :=
        ProcessNode_childLoop_builds env scene cs entity t st e0 hcs he
      refine ⟨st3, ?_, hl3, hf3, ?_⟩
      · simp only [ProcessNode, hpos, if_false]
        exact h3
      · unfold BuiltAt
        have hnil : ms = [] := List.eq_nil_of_length_eq_zero (by omega)
        refine ⟨_, hp3, ⟨?_, ?_⟩, ?_, hb3⟩
        · simp [hrc, aiNode.mMeshes, hnil]
        · intro rc hrc'
          simp [hrc] at hrc'
        · simp [hch]
/-- On well-formed children and a live entity, the child loop returns; it allocates one
cell per node below, leaves the other old cells as they were, appends the child pointers
to the entity and builds the subtrees. -/
theorem ProcessNode_childLoop_builds {F : Type} [Zero F] (env : Env F) (scene : aiScene F) :
    ∀ (cs : List (aiNode F)) (entity : Nat) (t : aiMatrix4x4 F) (st : State F) (e0 : Entity F),
      aiNode.wellFormedList scene cs = true → st.heap[entity]? = some e0 →
      ∃ st', ProcessNode.childLoop env entity t cs scene st = some st' ∧
        st'.heap.length = st.heap.length + aiNode.countList cs ∧
        (∀ q, q < st.heap.length → q ≠ entity → st'.heap[q]? = st.heap[q]?) ∧
        st'.heap[entity]? = some
          { e0 with children := e0.children ++ childPointers st.heap.length cs } ∧
        BuiltAtList (RenderComponentMatches env scene) st'.heap st.heap.length cs
  | [], entity, t, st, e0, _, he => by
    refine ⟨st, by simp [ProcessNode.childLoop], by simp [aiNode.countList], fun _ _ _ => rfl,
      ?_, by simp [BuiltAtList]⟩
    simp [childPointers, he]
  | c :: rest, entity, t, st, e0, hwf, he => by
    simp only [aiNode.wellFormedList, Bool.and_eq_true] at hwf
    obtain ⟨hc, hrest⟩ := hwf
    have hlt : entity < st.heap.length := (List.getElem?_eq_some.mp he).1
    obtain ⟨ha1, hal, hap, haf⟩ := newEntity_spec st
    obtain ⟨st1, h1, hl1, hp1, hf1⟩ := modifyEntity_spec (newEntity st).2 st.heap.length
      (fun e => e.setLocalTransform (aiMatrix4x4ToGlm t)) Entity.new hap
    have he1 : st1.heap[entity]? = some e0 := by
      rw [hf1 entity (by omega), haf entity hlt]; exact he
    obtain ⟨st2, h2, hl2, hp2, hf2⟩ := modifyEntity_spec st1 entity
      (fun e => e.addChild st.heap.length) e0 he1
    have hnew2 : st2.heap[st.heap.length]? =
        some (Entity.new.setLocalTransform (aiMatrix4x4ToGlm t)) := by
      rw [hf2 _ (by omega)]; exact hp1
    have hlen2 : st2.heap.length = st.heap.length + 1 := by rw [hl2, hl1, hal]
    obtain ⟨st3, h3, hl3, hf3, hb3⟩ := ProcessNode_builds env scene c st.heap.length st2 _ hc
      hnew2 rfl rfl
    have hcount := aiNode_count_eq c
    have hlen3 : st3.heap.length = st.heap.length + c.count := by
      rw [hl3, hlen2, hcount]; omega
    have he3 : st3.heap[entity]? = some (e0.addChild st.heap.length) := by
      rw [hf3 entity (by omega) (by omega)]; exact hp2
    obtain ⟨st4, h4, hl4, hf4, hp4, hb4⟩ := ProcessNode_childLoop_builds env scene rest entity t st3 _ hrest he3
    refine ⟨st4, ?_, ?_, ?_, ?_, ?_⟩
    · simp only [ProcessNode.childLoop]
      rw [ha1] at *
      simp only [h1, h2, h3]
      exact h4
    · rw [hl4, hlen3]; simp [aiNode.countList]; omega
    · intro q hq hne
      rw [hf4 q (by omega) hne, hf3 q (by omega) (by omega), hf2 q hne, hf1 q (by omega),
        haf q hq]
    · rw [hp4, hlen3]
      simp [Entity.addChild, childPointers]
    · unfold BuiltAtList
      rw [hlen2] at hb3
      rw [hlen3] at hb4
      refine ⟨BuiltAt_stable c _ _ hb3 ?_, hb4⟩
      rintro q (rfl | ⟨hq1, hq2⟩)
      · exact hf4 _ (by omega) (by omega)
      · exact hf4 q (by omega) (by omega)
end

/-- Every node counts at least itself. -/
theorem aiNode_count_pos {F : Type} (node : aiNode F) : 0 < node.count := by
  rw [aiNode_count_eq]; omega

/-- The child pointers lie in the region allocated for the subtrees. -/
theorem childPointers_bounds {F : Type} :
    ∀ (cs : List (aiNode F)) (base x : Nat), x ∈ childPointers base cs →
      base ≤ x ∧ x < base + aiNode.countList cs
  | [], _, _, h => by simp [childPointers] at h
  | c :: rest, base, x, h => by
    have hc := aiNode_count_pos c
    simp only [childPointers, List.mem_cons] at h
    simp only [aiNode.countList]
    rcases h with rfl | h
    · omega
    · have := childPointers_bounds rest (base + c.count) x h
      omega

/-- The child pointers are pairwise distinct. -/
theorem childPointers_nodup {F : Type} :
    ∀ (cs : List (aiNode F)) (base : Nat), (childPointers base cs).Nodup
  | [], _ => by simp [childPointers]
  | c :: rest, base => by
    have hc := aiNode_count_pos c
    simp only [childPointers, List.nodup_cons]
    refine ⟨fun h => ?_, childPointers_nodup rest (base + c.count)⟩
    have := childPointers_bounds rest (base + c.count) base h
    omega

mutual
/-- In a built subtree every cell of the region exists and has its children inside the
region, so has the root `p`, and every pointer of the region has exactly one parent
among `p` and the region. -/
theorem BuiltAt_region {F : Type} {Q : aiNode F → Entity F → Prop} {heap : List (Entity F)} :
    ∀ (node : aiNode F) (p base : Nat), p < base → BuiltAt Q heap p base node →
      (∀ q, base ≤ q → q < base + aiNode.countList node.mChildren →
        ∃ e, heap[q]? = some e ∧
          ∀ c ∈ e.children, base ≤ c ∧ c < base + aiNode.countList node.mChildren) ∧
      (∃ e, heap[p]? = some e ∧
          ∀ c ∈ e.children, base ≤ c ∧ c < base + aiNode.countList node.mChildren) ∧
      (∀ x, base ≤ x → x < base + aiNode.countList node.mChildren →
        UniqueParentIn heap
          (fun q => q = p ∨ (base ≤ q ∧ q < base + aiNode.countList node.mChildren)) x)
  | .mk t ms cs, p, base, hp, h => by
    unfold BuiltAt at h
    obtain ⟨e, he, _, hc, hl⟩ := h
    obtain ⟨La, Lb, Lc⟩ := BuiltAtList_region cs base hl
    simp only [aiNode.mChildren]
    refine ⟨La, ⟨e, he, fun c hcm => childPointers_bounds cs base c (hc ▸ hcm)⟩, ?_⟩
    intro x hx1 hx2
    rcases Lb x hx1 hx2 with hmem | ⟨q, e', hq, he', hcnt, hoth⟩
    · refine ⟨p, e, Or.inl rfl, he, ?_, ?_⟩
      · rw [hc]; exact List.count_eq_one_of_mem (childPointers_nodup cs base) hmem
      · intro q' e'' hS he'' hne
        rcases hS with rfl | ⟨h1, h2⟩
        · exact absurd rfl hne
        · exact Lc x hmem q' e'' h1 h2 he''
    · refine ⟨q, e', Or.inr hq, he', hcnt, ?_⟩
      intro q' e'' hS he'' hne
      rcases hS with rfl | hS
      · rw [he] at he''
        simp only [Option.some.injEq] at he''
        subst he''
        intro hmem
        rw [hc] at hmem
        have hin : x ∈ e'.children := List.count_pos_iff.mp (by omega)
        exact Lc x hmem q e' hq.1 hq.2 he' hin
      · exact hoth q' e'' hS he'' hne
/-- In built sibling subtrees every cell of the region exists and has its children
inside the region; a pointer of the region is either one of the sibling roots, which
have no parent inside the region, or has exactly one parent inside the region. -/
theorem BuiltAtList_region {F : Type} {Q : aiNode F → Entity F → Prop}
    {heap : List (Entity F)} :
    ∀ (cs : List (aiNode F)) (base : Nat), BuiltAtList Q heap base cs →
      (∀ q, base ≤ q → q < base + aiNode.countList cs →
        ∃ e, heap[q]? = some e ∧
          ∀ c ∈ e.children, base ≤ c ∧ c < base + aiNode.countList cs) ∧
      (∀ x, base ≤ x → x < base + aiNode.countList cs →
        x ∈ childPointers base cs ∨
        UniqueParentIn heap (fun q => base ≤ q ∧ q < base + aiNode.countList cs) x) ∧
      (∀ x ∈ childPointers base cs, ∀ (q : Nat) (e : Entity F), base ≤ q →
        q < base + aiNode.countList cs → heap[q]? = some e → x ∉ e.children)
  | [], base, _ => by
    refine ⟨fun q h1 h2 => ?_, fun x h1 h2 => ?_, fun x hx => ?_⟩
    · simp [aiNode.countList] at h2; omega
    · simp [aiNode.countList] at h2; omega
    · simp [childPointers] at hx
  | c :: rest, base, h => by
    unfold BuiltAtList at h
    obtain ⟨hb, hr⟩ := h
    have hcount := aiNode_count_eq c
    obtain ⟨Na, ⟨eb, heb, Nb⟩, Nu⟩ := BuiltAt_region c base (base + 1) (by omega) hb
    obtain ⟨Ra, Rb, Rc⟩ := BuiltAtList_region rest (base + c.count) hr
    have hA : ∀ q, base ≤ q → q < base + (c.count + aiNode.countList rest) →
        ∀ e, heap[q]? = some e →
          (q < base + c.count ∧ ∀ x ∈ e.children, base + 1 ≤ x ∧ x < base + c.count) ∨
          (base + c.count ≤ q ∧ ∀ x ∈ e.children,
            base + c.count ≤ x ∧ x < base + c.count + aiNode.countList rest) := by
      intro q h1 h2 e he
      by_cases hq0 : q = base
      · subst hq0
        rw [heb] at he
        simp only [Option.some.injEq] at he
        subst he
        exact Or.inl ⟨by omega, fun x hx => by have := Nb x hx; omega⟩
      · by_cases hq1 : q < base + c.count
        · obtain ⟨e1, he1, hch⟩ := Na q (by omega) (by omega)
          rw [he1] at he
          simp only [Option.some.injEq] at he
          subst he
          exact Or.inl ⟨hq1, fun x hx => by have := hch x hx; omega⟩
        · obtain ⟨e1, he1, hch⟩ := Ra q (by omega) (by omega)
          rw [he1] at he
          simp only [Option.some.injEq] at he
          subst he
          exact Or.inr ⟨by omega, hch⟩
    simp only [aiNode.countList, childPointers]
    refine ⟨?_, ?_, ?_⟩
    · intro q h1 h2
      have hsome : ∃ e, heap[q]? = some e := by
        by_cases hq0 : q = base
        · exact ⟨eb, hq0 ▸ heb⟩
        · by_cases hq1 : q < base + c.count
          · obtain ⟨e1, he1, _⟩ := Na q (by omega) (by omega)
            exact ⟨e1, he1⟩
          · obtain ⟨e1, he1, _⟩ := Ra q (by omega) (by omega)
            exact ⟨e1, he1⟩
      obtain ⟨e, he⟩ := hsome
      refine ⟨e, he, fun x hx => ?_⟩
      rcases hA q h1 h2 e he with ⟨_, hch⟩ | ⟨_, hch⟩
      · have := hch x hx; omega
      · have := hch x hx; omega
    · intro x h1 h2
      by_cases hx0 : x = base
      · exact Or.inl (hx0 ▸ List.mem_cons_self _ _)
      · by_cases hx1 : x < base + c.count
        · right
          obtain ⟨q, e, hS, he, hcnt, hoth⟩ := Nu x (by omega) (by omega)
          refine ⟨q, e, by rcases hS with rfl | hS <;> omega, he, hcnt, ?_⟩
          intro q' e' hS' he' hne
          by_cases hq' : q' < base + c.count
          · refine hoth q' e' ?_ he' hne
            by_cases hq0 : q' = base
            · exact Or.inl hq0
            · exact Or.inr (by omega)
          · rcases hA q' hS'.1 hS'.2 e' he' with ⟨hlt, _⟩ | ⟨_, hch⟩
            · exact absurd hlt hq'
            · intro hmem
              have := hch x hmem
              omega
        · rcases Rb x (by omega) (by omega) with hmem | ⟨q, e, hS, he, hcnt, hoth⟩
          · exact Or.inl (List.mem_cons_of_mem _ hmem)
          · right
            refine ⟨q, e, by omega, he, hcnt, ?_⟩
            intro q' e' hS' he' hne
            rcases hA q' hS'.1 hS'.2 e' he' with ⟨_, hch⟩ | ⟨hge, _⟩
            · intro hmem
              have := hch x hmem
              omega
            · exact hoth q' e' ⟨hge, by omega⟩ he' hne
    · intro x hx q e h1 h2 he hmem
      rcases List.mem_cons.mp hx with rfl | hx
      · rcases hA q h1 h2 e he with ⟨_, hch⟩ | ⟨_, hch⟩
        · have := hch x hmem; omega
        · have := hch x hmem
          have := aiNode_count_pos c
          omega
      · have hxb := childPointers_bounds rest (base + c.count) x hx
        rcases hA q h1 h2 e he with ⟨_, hch⟩ | ⟨hge, _⟩
        · have := hch x hmem; omega
        · exact Rc x hx q e hge (by omega) he hmem
end

/-- C6: for every well-formed source node tree, `ProcessNode` on a fresh entity returns,
and in the resulting heap every entity of the built tree, the root included, has a
render component if and only if its source node references at least one mesh; the
component then holds one renderable per mesh reference of the node, in order, the
`k`-th being a `Processmesh` result for scene mesh number `mMeshes[k]`. -/
theorem ProcessNode_render_component_iff_meshes {F : Type} [Zero F] (env : Env F)
    (scene : aiScene F) (node : aiNode F) (entity : Nat) (st : State F)
    (hwf : node.wellFormed scene = true) (hfresh : st.heap[entity]? = some Entity.new) :
    ∃ st', ProcessNode env entity node scene st = some st' ∧
      EntityOf (RenderComponentMatches env scene) st'.heap entity node := by
  obtain ⟨st', h, _, _, hb⟩ := ProcessNode_builds env scene node entity st Entity.new hwf hfresh
    rfl rfl
  exact ⟨st', h, BuiltAt_entityOf (fun _ _ hq => hq) node entity st.heap.length hb⟩

/-- Witness of C6 on the concrete scene. -/
theorem ProcessNode_render_component_iff_meshes_witness :
    Example.root.wellFormed Example.scene = true ∧
    Example.inDirB.heap[0]? = some Entity.new ∧
    ∃ st', ProcessNode Example.env 0 Example.root Example.scene Example.inDirB = some st' ∧
      EntityOf (RenderComponentMatches Example.env Example.scene) st'.heap 0 Example.root :=
  ⟨by decide, by decide,
    ProcessNode_render_component_iff_meshes Example.env Example.scene Example.root 0
      Example.inDirB (by decide) (by decide)⟩

/-- C7: for every well-formed source node tree, `ProcessNode` on a fresh root entity
that is nobody's child, in a heap without dangling child pointers, returns, and then the
entity tree has the shape of the source tree (the entity of a node has exactly as many
children as the node, the `i`-th being the entity of the node's `i`-th child), the
entities created plus the root are as many as the source nodes, every created entity is
a child of exactly one entity, and the root is still nobody's child. -/
theorem ProcessNode_entity_tree_shape {F : Type} [Zero F] (env : Env F)
    (scene : aiScene F) (node : aiNode F) (entity : Nat) (st : State F)
    (hwf : node.wellFormed scene = true) (hfresh : st.heap[entity]? = some Entity.new)
    (hclosed : HeapClosed st.heap) (hroot : HasNoParent st.heap entity) :
    ∃ st', ProcessNode env entity node scene st = some st' ∧
      EntityOf (fun _ _ => True) st'.heap entity node ∧
      st'.heap.length + 1 = st.heap.length + node.count ∧
      (∀ p, st.heap.length ≤ p → p < st'.heap.length → HasUniqueParent st'.heap p) ∧
      HasNoParent st'.heap entity := by
  obtain ⟨st', h, hlen, hframe, hb⟩ :=
    ProcessNode_builds env scene node entity st Entity.new hwf hfresh rfl rfl
  have hlt : entity < st.heap.length := (List.getElem?_eq_some.mp hfresh).1
  obtain ⟨Ra, ⟨er, her, Rr⟩, Ru⟩ := BuiltAt_region node entity st.heap.length hlt hb
  have hold : ∀ (q : Nat) (e : Entity F), st'.heap[q]? = some e → q ≠ entity →
      ¬ (st.heap.length ≤ q ∧ q < st.heap.length + aiNode.countList node.mChildren) →
      ∀ c ∈ e.children, c < st.heap.length ∧ c ≠ entity := by
    intro q e he hne hnr c hc
    have hq : q < st'.heap.length := (List.getElem?_eq_some.mp he).1
    have hq' : q < st.heap.length := by omega
    rw [hframe q hq' hne] at he
    have hmem : e ∈ st.heap := List.getElem?_mem he
    refine ⟨hclosed e hmem c hc, ?_⟩
    rintro rfl
    exact hroot e hmem hc
  refine ⟨st', h, BuiltAt_entityOf (fun _ _ _ => trivial) node entity st.heap.length hb, ?_, ?_, ?_⟩
  · rw [hlen, aiNode_count_eq]; omega
  · intro p hp1 hp2
    obtain ⟨q, e, _, he, hcnt, hoth⟩ := Ru p hp1 (by omega)
    refine ⟨q, e, he, hcnt, ?_⟩
    intro q' e' he' hne
    by_cases hS : q' = entity ∨
        (st.heap.length ≤ q' ∧ q' < st.heap.length + aiNode.countList node.mChildren)
    · exact hoth q' e' hS he' hne
    · intro hmem
      have := hold q' e' he' (fun h => hS (Or.inl h)) (fun h => hS (Or.inr h)) p hmem
      omega
  · intro e hmem hc
    obtain ⟨q, hq⟩ := List.mem_iff_getElem?.mp hmem
    by_cases hq0 : q = entity
    · rw [hq0, her] at hq
      simp only [Option.some.injEq] at hq
      subst hq
      have := Rr entity hc
      omega
    · by_cases hr : st.heap.length ≤ q ∧ q < st.heap.length + aiNode.countList node.mChildren
      · obtain ⟨e1, he1, hch⟩ := Ra q hr.1 hr.2
        rw [he1] at hq
        simp only [Option.some.injEq] at hq
        subst hq
        have := hch entity hc
        omega
      · exact (hold q e hq hq0 hr entity hc).2 rfl

/-- Witness of C7 on the concrete scene. -/
theorem ProcessNode_entity_tree_shape_witness :
    Example.root.wellFormed Example.scene = true ∧
    Example.inDirB.heap[0]? = some Entity.new ∧
    HeapClosed Example.inDirB.heap ∧ HasNoParent Example.inDirB.heap 0 ∧
    ∃ st', ProcessNode Example.env 0 Example.root Example.scene Example.inDirB = some st' ∧
      EntityOf (fun _ _ => True) st'.heap 0 Example.root ∧
      st'.heap.length + 1 = Example.inDirB.heap.length + Example.root.count ∧
      (∀ p, Example.inDirB.heap.length ≤ p → p < st'.heap.length →
        HasUniqueParent st'.heap p) ∧
      HasNoParent st'.heap 0 :=
  ⟨by decide, by decide, by simp [HeapClosed, Example.inDirB, Entity.new],
    by simp [HasNoParent, Example.inDirB, Entity.new],
    ProcessNode_entity_tree_shape Example.env Example.scene Example.root 0 Example.inDirB
      (by decide) (by decide) (by simp [HeapClosed, Example.inDirB, Entity.new])
      (by simp [HasNoParent, Example.inDirB, Entity.new])⟩

/-- On a readable, complete scene with a well-formed root node, `LoadModel` returns a
non-null pointer. -/
theorem LoadModel_some {F : Type} [Zero F] (env : Env F) (modelPath : String)
    (scene : aiScene F) (root : aiNode F) (st : State F)
    (hread : env.ReadFile modelPath = some scene)
    (hflags : scene.mFlags &&& AI_SCENE_FLAGS_INCOMPLETE = 0)
    (hroot : scene.mRootNode = some root) (hwf : root.wellFormed scene = true) :
    ∃ e st', LoadModel env modelPath st = some (some e, st') := by
  obtain ⟨st', h, _⟩ := ProcessNode_builds env scene root st.heap.length
    (newEntity ⟨st.textures_loaded, substr0 modelPath (find_last_of modelPath (Char.ofNat 47)),
      st.heap, st.trace⟩).2
    Entity.new hwf (by simp [newEntity]) rfl rfl
  refine ⟨st.heap.length, { st' with directory := "" }, ?_⟩
  simp only [LoadModel, hread, hflags, hroot]
  simp only [ne_eq, not_true_eq_false, if_false]
  have h1 : (newEntity (⟨st.textures_loaded,
      substr0 modelPath (find_last_of modelPath (Char.ofNat 47)), st.heap, st.trace⟩ :
      State F)).1 = st.heap.length := rfl
  rw [h1, h]

/-- C9: for every texture path whose file the decoder cannot read in the given
directory, `TextureFromFile` returns the sentinel handle 4294967295 and adds no GPU call
to the trace; `loadMaterialTextures`, run in that directory on a cache in which no entry
of that path carries another handle (the empty cache, for one), still returns a binding
for every texture of the slot (as many bindings as the slot has textures), and the
binding of a texture with that path carries the sentinel handle, as does every binding
of that path returned by any sequence of such calls; and `LoadModel` on a readable,
complete, well-formed scene returns a non-null entity whatever the decoder answers. -/
theorem texture_decode_failure_degrades_binding {F : Type} [Zero F] (env : Env F)
    (path directory : String)
    (hfail : env.stbi_load (C_Str (directory ++ "/" ++ path)) = none) :
    (∀ trace, TextureFromFile env path directory trace =
        (4294967295, trace ++ [Event.TextureFromFile path directory]) ∧
      (TextureFromFile env path directory trace).2.filter Event.isGpuCall =
        trace.filter Event.isGpuCall) ∧
    (∀ (mat : aiMaterial) (type : aiTextureType) (typeName : String) (st : State F),
      (loadMaterialTextures env mat type typeName st).1.length = (mat.textures type).length ∧
      (st.directory = directory → SentinelCached path st →
        ∀ (i : Nat) (str : String), (mat.textures type)[i]? = some str → C_Str str = path →
          ∃ b, (loadMaterialTextures env mat type typeName st).1[i]? = some b ∧
            b.id = 4294967295)) ∧
    (∀ (calls : List TextureCall) (st : State F),
      st.directory = directory → SentinelCached path st →
      ∀ bs ∈ (loadMaterialTexturesSeq env calls st).1, ∀ b ∈ bs,
        C_Str b.path = path → b.id = 4294967295) ∧
    (∀ (modelPath : String) (scene : aiScene F) (root : aiNode F) (st : State F),
      env.ReadFile modelPath = some scene →
      scene.mFlags &&& AI_SCENE_FLAGS_INCOMPLETE = 0 →
      scene.mRootNode = some root → root.wellFormed scene = true →
      ∃ e st', LoadModel env modelPath st = some (some e, st')) := by
  refine ⟨fun trace => ?_, fun mat type typeName st => ⟨?_, ?_⟩, ?_, ?_⟩
  · have h := TextureFromFile_fail env path directory trace hfail
    refine ⟨h, ?_⟩
    rw [h]
    simp [Event.isGpuCall]
  · exact (loadMaterialTextures_grows env mat type typeName st).2.1
  · intro hdir hinv i str hi hs
    have := loadMaterialTextures_loop_sentinel env path typeName (mat.textures type) 0 [] st
      (by rw [hdir]; exact hfail) hinv i str hi hs
    simpa [loadMaterialTextures] using this
  · intro calls st hdir hinv bs hbs b hb hpath
    have hkept := loadMaterialTexturesSeq_sentinel_kept env path calls st
      (by rw [hdir]; exact hfail) hinv
    exact hkept b ((loadMaterialTexturesSeq_grows env calls st).2 bs hbs b hb) hpath
  · intro modelPath scene root st h1 h2 h3 h4
    exact LoadModel_some env modelPath scene root st h1 h2 h3 h4

/-- Witness of C9: `a.png` cannot be decoded in `dirB`. -/
theorem texture_decode_failure_degrades_binding_witness :
    Example.env.stbi_load (C_Str ("dirB" ++ "/" ++ "a.png")) = none ∧
    ((∀ trace, TextureFromFile Example.env "a.png" "dirB" trace =
        (4294967295, trace ++ [Event.TextureFromFile "a.png" "dirB"]) ∧
      (TextureFromFile Example.env "a.png" "dirB" trace).2.filter Event.isGpuCall =
        trace.filter Event.isGpuCall) ∧
    (∀ (mat : aiMaterial) (type : aiTextureType) (typeName : String) (st : State Int),
      (loadMaterialTextures Example.env mat type typeName st).1.length =
        (mat.textures type).length ∧
      (st.directory = "dirB" → SentinelCached "a.png" st →
        ∀ (i : Nat) (str : String), (mat.textures type)[i]? = some str →
          C_Str str = "a.png" →
          ∃ b, (loadMaterialTextures Example.env mat type typeName st).1[i]? = some b ∧
            b.id = 4294967295)) ∧
    (∀ (calls : List TextureCall) (st : State Int),
      st.directory = "dirB" → SentinelCached "a.png" st →
      ∀ bs ∈ (loadMaterialTexturesSeq Example.env calls st).1, ∀ b ∈ bs,
        C_Str b.path = "a.png" → b.id = 4294967295) ∧
    (∀ (modelPath : String) (scene : aiScene Int) (root : aiNode Int) (st : State Int),
      Example.env.ReadFile modelPath = some scene →
      scene.mFlags &&& AI_SCENE_FLAGS_INCOMPLETE = 0 →
      scene.mRootNode = some root → root.wellFormed scene = true →
      ∃ e st', LoadModel Example.env modelPath st = some (some e, st'))) :=
  ⟨by decide, texture_decode_failure_degrades_binding Example.env "a.png" "dirB" (by decide)⟩
